import Mathlib

/-!
# Verification of the caddy-writable-file-server deployment core

Shallow embedding of the Go sources of `TheBigRoomXXL/caddy-writable-file-server`:
the path resolver (`getTempPath`, `getBackupPath`), the archive extractor
(`extractFile`, `extractDirectory`, `extractTarGz`, `extractTar`), the rollback
procedure (`rollback`) and the request handlers (`HandlePut`, `HandleDelete`,
plus the error-reporting tail of `ServeHTTP`).

Go strings are byte strings; every byte that occurs in the modelled paths is
ASCII, so we model a Go string as a `List Char` (`GoStr`).  Go's standard
library functions used by the code (`strings.HasPrefix`, `strings.HasSuffix`,
`strings.TrimSuffix`, `filepath.Clean`, `filepath.Join`, `filepath.Dir`) are
given executable models below, element-for-element faithful to their
documented lexical behaviour on slash-separated paths.
-/

/-- A Go string (byte string); all bytes of interest are ASCII characters. -/
abbrev GoStr := List Char

/-- Literal Go strings, written with Lean string syntax. -/
def gs (s : String) : GoStr := s.data

/-- Model of Go `strings.HasSuffix s suf`. -/
def goHasSuffix (s suf : GoStr) : Bool := suf.isSuffixOf s

/-- Model of Go `strings.TrimSuffix s suf`. -/
def goTrimSuffix (s suf : GoStr) : GoStr :=
  if suf.isSuffixOf s then s.take (s.length - suf.length) else s

/-- Split a character list at every occurrence of `sep`
(model of Go `strings.Split s "/"` as used by `filepath.Clean`). -/
def splitC (sep : Char) : GoStr → List GoStr
  | [] => [[]]
  | c :: rest =>
    match splitC sep rest with
    | [] => [[c]] -- unreachable: splitC never returns []
    | g :: gss => if c = sep then [] :: g :: gss else (c :: g) :: gss

/-- One step of Go `filepath.Clean`'s lexical scan: push one path component
onto the (reversed) stack of output components. -/
def cleanPush (rooted : Bool) (acc : List GoStr) (c : GoStr) : List GoStr :=
  if c = [] ∨ c = gs "." then acc
  else if c = gs ".." then
    match acc with
    | [] => if rooted then [] else [c]
    | a :: rest => if a = gs ".." then c :: a :: rest else rest
  else c :: acc

/-- The cleaned component list of a path (in order). -/
def cleanStack (rooted : Bool) (comps : List GoStr) : List GoStr :=
  (comps.foldl (cleanPush rooted) []).reverse

/-- Join components with `'/'` (no leading or trailing separator). -/
def renderRel : List GoStr → GoStr
  | [] => []
  | [g] => g
  | g :: h :: t => g ++ '/' :: renderRel (h :: t)

/-- Render a cleaned component list back into a path string. -/
def render (rooted : Bool) (comps : List GoStr) : GoStr :=
  if rooted then '/' :: renderRel comps
  else if comps = [] then gs "." else renderRel comps

/-- Model of Go `filepath.Clean` for slash-separated (unix) paths. -/
def clean (s : GoStr) : GoStr :=
  if s = [] then gs "."
  else
    render (decide (s.head? = some '/'))
      (cleanStack (decide (s.head? = some '/')) (splitC '/' s))

/-- Model of Go `filepath.Join(a, b)` (two non-degenerate arguments):
join with a separator, then clean.  Go returns `""` when all elements are
empty and skips empty elements otherwise. -/
def goJoin (a b : GoStr) : GoStr :=
  if a = [] ∧ b = [] then []
  else if a = [] then clean b
  else if b = [] then clean a
  else clean (a ++ '/' :: b)

/-- Everything up to and including the last `'/'` of a path
(`path[:i+1]` in Go `filepath.Dir`); empty when there is no slash. -/
def upToLastSlash (p : GoStr) : GoStr := (p.reverse.dropWhile (· ≠ '/')).reverse

/-- Model of Go `filepath.Dir`: clean of everything up to and including the
last separator (`"."` when there is none). -/
def goDir (p : GoStr) : GoStr := clean (upToLastSlash p)

/-- Go source (utils): `getTempPath(id, target)` — temporary path next to the
target; `"-" + id + "-tmp"` appended, trailing separator preserved.
(Behaviour pinned by the repository's own tests `TestGetTempPathDirectory` /
`TestGetTempPathFile`.) -/
def getTempPath (id target : GoStr) : GoStr :=
  if goHasSuffix target (gs "/") then
    goTrimSuffix target (gs "/") ++ gs "-" ++ id ++ gs "-tmp/"
  else target ++ gs "-" ++ id ++ gs "-tmp"

/-- Go source (utils): `getBackupPath(id, target)` — backup path next to the
target; `"." + id + "-backup"` appended, trailing separator preserved. -/
def getBackupPath (id target : GoStr) : GoStr :=
  if goHasSuffix target (gs "/") then
    goTrimSuffix target (gs "/") ++ gs "." ++ id ++ gs "-backup/"
  else target ++ gs "." ++ id ++ gs "-backup"

/-- Go source (errors.go): `ErrorDeployement` — status code plus a private
diagnostic (the wrapped Go `error`, modelled by its message) and a public-safe
message.  `(e ErrorDeployement) Error()` returns the private message. -/
structure ErrorDeployement where
  StatusCode : Nat
  Private : String
  Public : String
deriving DecidableEq, Repr

/-- `Error()` method of `ErrorDeployement`: returns the private message. -/
def ErrorDeployement.errorMsg (e : ErrorDeployement) : String := e.Private

/-- An HTTP client-class status (4xx), as opposed to server-class (5xx). -/
def clientClass (e : ErrorDeployement) : Prop :=
  400 ≤ e.StatusCode ∧ e.StatusCode < 500

instance (e : ErrorDeployement) : Decidable (clientClass e) := by
  unfold clientClass; infer_instance

/-- Abstract filesystem state: contents of regular files and the set of
directories, both keyed by the exact path string the Go code passes to the
corresponding `os` call. -/
structure FS where
  files : GoStr → Option GoStr
  dirs : GoStr → Bool

/-- The empty filesystem. -/
def emptyFS : FS := ⟨fun _ => none, fun _ => false⟩

/-- Outcome of `os.Stat p`: does anything (file or directory) exist at `p`? -/
def statExists (fs : FS) (p : GoStr) : Bool := (fs.files p).isSome || fs.dirs p

/-- Create/overwrite the regular file at `p` with content `c`. -/
def setFile (fs : FS) (p : GoStr) (c : GoStr) : FS :=
  { fs with files := fun q => if q = p then some c else fs.files q }

/-- Model of `os.MkdirAll p`: records the directory `p` (intermediate parent
entries are elided — no claim depends on them). -/
def mkdirAll (fs : FS) (p : GoStr) : FS :=
  { fs with dirs := fun q => if q = p then true else fs.dirs q }

/-- Is `q` the path `root` itself (with or without its trailing separator) or
a path strictly inside the tree rooted at `root`? -/
def inTree (root q : GoStr) : Bool :=
  q = root ∨ q = goTrimSuffix root (gs "/") ∨
    (goTrimSuffix root (gs "/") ++ gs "/").isPrefixOf q

/-- Model of `os.RemoveAll p`: removes `p` and everything underneath it. -/
def removeAll (fs : FS) (p : GoStr) : FS :=
  { files := fun q => if inTree p q then none else fs.files q,
    dirs := fun q => if inTree p q then false else fs.dirs q }

/-- Model of `os.Rename src dst` on a whole tree: every path under `src` is
re-keyed under `dst`; paths under `dst` now resolve through `src`'s old tree. -/
def renameTree (fs : FS) (src dst : GoStr) : FS :=
  let sb := goTrimSuffix src (gs "/")
  let db := goTrimSuffix dst (gs "/")
  let pull : GoStr → GoStr := fun q => sb ++ q.drop db.length
  { files := fun q =>
      if q = dst ∨ q = db then fs.files src <|> fs.files sb
      else if (db ++ gs "/").isPrefixOf q then fs.files (pull q)
      else if inTree src q then none
      else fs.files q,
    dirs := fun q =>
      if q = dst ∨ q = db then fs.dirs src || fs.dirs sb
      else if (db ++ gs "/").isPrefixOf q then fs.dirs (pull q)
      else if inTree src q then false
      else fs.dirs q }

/-- One observable filesystem action performed by the deployment code. -/
inductive FsAction
  | mkdirA (p : GoStr)
  | createA (p : GoStr)
  | writeA (p : GoStr)
  | renameA (src dst : GoStr)
  | removeA (p : GoStr)
  | rollbackA (id target : GoStr)
deriving DecidableEq, Repr

/-- Does the action create something (a file, a directory, or a rename
destination) at path `p`? -/
def FsAction.createsAt (p : GoStr) : FsAction → Bool
  | .mkdirA q => q = p
  | .createA q => q = p
  | .writeA q => q = p
  | .renameA _ d => d = p
  | .removeA _ => false
  | .rollbackA _ _ => false

/-- Tar entry type flag (`tar.TypeDir`, `tar.TypeReg`, anything else). -/
inductive TarType
  | dir
  | reg
  | other
deriving DecidableEq, Repr

/-- One tar header together with the entry's byte content (modes are not
tracked by the abstract filesystem). -/
structure TarEntry where
  name : GoStr
  typeflag : TarType
  content : GoStr
deriving DecidableEq, Repr

/-- One step of the tar iterator: either a well-formed entry or a point where
`tarReader.Next()` fails with a non-EOF error. -/
inductive TarItem
  | entry (e : TarEntry)
  | corrupt
deriving DecidableEq, Repr

/-- The request body stream, abstracted by what the Go code can observe of it:
its raw bytes (single-file uploads), the result of parsing it as a tar stream,
and the result of gunzipping it and parsing the output as tar (`none` when the
bytes are not valid gzip, making `gzip.NewReader` fail). -/
structure Reader where
  bytes : GoStr
  tarItems : List TarItem
  gunzip : Option (List TarItem)

/-- Result of one extraction / deployment step: the filesystem afterwards, the
returned `*ErrorDeployement` (`none` = Go `nil`), and the trace of filesystem
actions that were performed. -/
structure StepResult where
  fs : FS
  err : Option ErrorDeployement
  tr : List FsAction

/-- Go source (utils): `extractTar(target, reader)`.  Walks the tar entries;
for each entry joins its name onto `target`, rejects the entry unless the
joined (hence cleaned) path has `filepath.Clean(target) + "/"` as a prefix,
then materializes directory and regular-file entries and skips all others. -/
def extractTar (fs : FS) (target : GoStr) : List TarItem → StepResult
  | [] => ⟨fs, none, []⟩
  | .corrupt :: _ => ⟨fs, some ⟨500, "failed to extract tar", ""⟩, []⟩
  | .entry e :: rest =>
    let targetPath := goJoin target e.name
    if ¬ ((clean target ++ gs "/").isPrefixOf targetPath) then
      ⟨fs, some ⟨500, "security error: path traversal", ""⟩, []⟩
    else
      match e.typeflag with
      | .dir =>
        let r := extractTar (mkdirAll fs targetPath) target rest
        ⟨r.fs, r.err, .mkdirA targetPath :: r.tr⟩
      | .reg =>
        let parentDir := goDir targetPath
        let r := extractTar (setFile (mkdirAll fs parentDir) targetPath e.content) target rest
        ⟨r.fs, r.err, .mkdirA parentDir :: .writeA targetPath :: r.tr⟩
      | .other => extractTar fs target rest

/-- Go source (utils): `extractTarGz(target, reader)` — wrap the body in a
gzip reader (500 on failure), then extract as tar. -/
def extractTarGz (fs : FS) (target : GoStr) (r : Reader) : StepResult :=
  match r.gunzip with
  | none => ⟨fs, some ⟨500, "failed to wrap body in gzip reader", ""⟩, []⟩
  | some items => extractTar fs target items

/-- Go source (utils): `extractDirectory(target, reader, contentType)` —
dispatch on the content type; six recognized tar / gzip-tar MIME strings,
anything else is rejected with a 400 before touching the filesystem. -/
def extractDirectory (fs : FS) (target : GoStr) (r : Reader) (contentType : String) :
    StepResult :=
  match contentType with
  | "application/x-tar" => extractTar fs target r.tarItems
  | "application/tar" => extractTar fs target r.tarItems
  | "application/x-tar+gzip" => extractTarGz fs target r
  | "application/tar+gzip" => extractTarGz fs target r
  | "application/x-gzip" => extractTarGz fs target r
  | "application/gzip" => extractTarGz fs target r
  | _ =>
    ⟨fs, some ⟨400,
      "bad content-type: only 'application/x-tar' and 'application/x-tar+gzip' are allowed for directories",
      "bad content-type: only 'application/x-tar' and 'application/x-tar+gzip' are allowed"⟩, []⟩

/-- Go source (utils): `extractFile(target, reader)` — open the destination
with `O_CREATE|O_EXCL|O_WRONLY` (which fails when anything already exists at
that path), then stream-copy the body into it. -/
def extractFile (fs : FS) (target : GoStr) (body : GoStr) : StepResult :=
  if statExists fs target then
    ⟨fs, some ⟨500, "failed to open target file for extraction", ""⟩, []⟩
  else
    ⟨setFile fs target body, none, [.createA target]⟩

/-- Go source (utils): `rollback(id, target)` — if the backup does not exist
there is nothing to roll back (`nil`); otherwise remove whatever is at the
target, rename the backup back onto the target, and remove the backup path.
(`os.Stat` and the removal/rename calls are modelled as succeeding; the
returned `error` is therefore `none` on every modelled run.) -/
def rollback (fs : FS) (id target : GoStr) : FS × Option String × List FsAction :=
  let targetbackup := getBackupPath id target
  if statExists fs targetbackup = false then (fs, none, [])
  else
    let fs1 := removeAll fs target
    let fs2 := renameTree fs1 targetbackup target
    let fs3 := removeAll fs2 targetbackup
    (fs3, none, [.removeA target, .renameA targetbackup target, .removeA targetbackup])

/-- First half of `HandlePut` (main.go): ensure the temporary/parent
directory exists, then extract the body into the temporary location
(`extractDirectory` for directory targets, `extractFile` otherwise). -/
def extractPhase (fs : FS) (id target : GoStr) (r : Reader) (contentType : String) :
    StepResult :=
  let isDirectory := goHasSuffix target (gs "/")
  let targetTemp := getTempPath id target
  let targetTempDir := if isDirectory then targetTemp else goDir target
  let fs1 := mkdirAll fs targetTempDir
  let ext := if isDirectory then extractDirectory fs1 targetTemp r contentType
             else extractFile fs1 targetTemp r.bytes
  ⟨ext.fs, ext.err, .mkdirA targetTempDir :: ext.tr⟩

/-- Second half of `HandlePut` (main.go): stat the target, back it up when it
exists, swap the temporary location onto the target with `os.Rename`, roll
back on swap failure, remove the backup on success.  `swapErr` injects the
outcome of the final rename: `none` means it succeeds, `some msg` means it
fails with an error whose message is `msg` (e.g. `"invalid cross-device
link"`).  All other `os` calls are modelled as succeeding. -/
def swapPhase (fs : FS) (id target : GoStr) (swapErr : Option GoStr) : StepResult :=
  let targetTemp := getTempPath id target
  -- os.Stat(target); only existence/absence is modelled, not I/O failure
  if statExists fs target then
    let targetBackup := getBackupPath id target
    let fs3 := renameTree fs target targetBackup
    match swapErr with
    | some _ =>
      let rb := rollback fs3 id target
      ⟨rb.1, some ⟨500, "failed to swap temporary directoy with target", ""⟩,
        .renameA target targetBackup :: .rollbackA id target :: rb.2.2⟩
    | none =>
      let fs4 := renameTree fs3 targetTemp target
      -- deferred backup cleanup runs because err == nil
      ⟨removeAll fs4 targetBackup, none,
        [.renameA target targetBackup, .renameA targetTemp target, .removeA targetBackup]⟩
  else
    match swapErr with
    | some _ =>
      let rb := rollback fs id target
      ⟨rb.1, some ⟨500, "failed to swap temporary directoy with target", ""⟩,
        .rollbackA id target :: rb.2.2⟩
    | none =>
      ⟨renameTree fs targetTemp target, none, [.renameA targetTemp target]⟩

/-- Go source (main.go): `HandlePut(id, target, r)` — extraction into the
temporary location followed, when extraction succeeded, by the
backup-and-swap transaction. -/
def HandlePut (fs : FS) (id target : GoStr) (r : Reader) (contentType : String)
    (swapErr : Option GoStr) : StepResult :=
  let ext := extractPhase fs id target r contentType
  match ext.err with
  | some e => ⟨ext.fs, some e, ext.tr⟩
  | none =>
    let sw := swapPhase ext.fs id target swapErr
    ⟨sw.fs, sw.err, ext.tr ++ sw.tr⟩

/-- Go source (main.go): `HandleDelete(id, target, r)` — 404 when the target
does not exist, otherwise `os.RemoveAll(target)`; `removeFails` injects a
failure of that removal (in which case the filesystem outcome is left as-is
by the model). -/
def HandleDelete (fs : FS) (target : GoStr) (removeFails : Bool) : StepResult :=
  if statExists fs target = false then
    ⟨fs, some ⟨404, "trying to delete a target that does not exist", "Not Found."⟩, []⟩
  else if removeFails then
    ⟨fs, some ⟨500, "failed to delete target", ""⟩, [.removeA target]⟩
  else
    ⟨removeAll fs target, none, [.removeA target]⟩

/-- Go source (main.go, `ServeHTTP` error tail): when the handler returned an
error, clear `err.Public` for status codes ≥ 500, then write
`err.Error()` — the *private* message — to the response body.  Returns the
body that is written and the (possibly mutated) error that is propagated. -/
def respondError (e : ErrorDeployement) : String × ErrorDeployement :=
  let e1 := if 500 ≤ e.StatusCode then { e with Public := "" } else e
  (e1.errorMsg, e1)

/-- A well-formed path component: nonempty and separator-free. -/
def CompOk (g : GoStr) : Prop := g ≠ [] ∧ '/' ∉ g

/-- Total rendered size of a component list (content plus one separator each);
used to bound the length of `clean`'s output. -/
def wsum (l : List GoStr) : Nat := (l.map (fun g => g.length + 1)).sum

/-- `j` is a possible output of `clean`. -/
def IsCleanImg (j : GoStr) : Prop := ∃ s, j = clean s

/-- `q` is a joined-and-canonicalized tar entry path lying strictly inside the
extraction root `troot` (the path-containment check of `extractTar`). -/
def KeyJ (troot q : GoStr) : Prop :=
  IsCleanImg q ∧ ((clean troot ++ gs "/").isPrefixOf q = true)

/-- `q` is a path that `extractTar` rooted at `troot` may write to: an
in-root entry path or the parent directory of one. -/
def KeyTouched (troot q : GoStr) : Prop :=
  KeyJ troot q ∨ ∃ j, KeyJ troot j ∧ q = goDir j

example : clean (gs "/stage/../../etc/passwd") = gs "/etc/passwd" := by decide
example : clean (gs "a/b/") = gs "a/b" := by decide
example : clean (gs "") = gs "." := by decide
example : clean (gs "/") = gs "/" := by decide
example : clean (gs "./x") = gs "x" := by decide
example : goJoin (gs "/stage") (gs "../../etc/passwd") = gs "/etc/passwd" := by decide
example : goDir (gs "/a/b") = gs "/a" := by decide
example : goDir (gs "abc") = gs "." := by decide
example : goDir (gs "/a") = gs "/" := by decide
example : getTempPath (gs "tested") (gs "/path/to/dir/") = gs "/path/to/dir-tested-tmp/" := by decide
example : getTempPath (gs "tested") (gs "/path/to/file") = gs "/path/to/file-tested-tmp" := by decide
example : getBackupPath (gs "tested") (gs "/path/to/dir/") = gs "/path/to/dir.tested-backup/" := by decide
example : getBackupPath (gs "tested") (gs "/path/to/file") = gs "/path/to/file.tested-backup" := by decide

/-! ## Generic list and string helpers -/

theorem ne_of_length_ne {a b : GoStr} (h : a.length ≠ b.length) : a ≠ b :=
  fun e => h (by rw [e])

theorem length_le_of_isPrefixOf {a b : GoStr} (h : a.isPrefixOf b = true) :
    a.length ≤ b.length := by
  rw [List.isPrefixOf_iff_prefix] at h
  exact h.length_le

theorem mem_of_getLast?_eq_some {l : GoStr} {a : Char} (h : l.getLast? = some a) :
    a ∈ l := by
  cases l with
  | nil => simp at h
  | cons b t =>
    rw [List.getLast?_eq_getLast _ (by simp)] at h
    rw [← Option.some_inj.mp h]
    exact List.getLast_mem _

theorem head?_append_left {l : GoStr} (m : GoStr) (h : l ≠ []) :
    (l ++ m).head? = l.head? := by
  cases l with
  | nil => exact absurd rfl h
  | cons a t => simp

theorem getLast?_append_right (l : GoStr) {m : GoStr} (h : m ≠ []) :
    (l ++ m).getLast? = m.getLast? :=
  List.getLast?_append_of_ne_nil l h

theorem head?_of_isPrefixOf {a b : GoStr} (h : a.isPrefixOf b = true) (ha : a ≠ []) :
    b.head? = a.head? := by
  rw [List.isPrefixOf_iff_prefix] at h
  obtain ⟨t, rfl⟩ := h
  exact head?_append_left t ha

theorem mem_of_mem_isPrefixOf {a b : GoStr} {c : Char} (h : a.isPrefixOf b = true)
    (hc : c ∈ a) : c ∈ b := by
  rw [List.isPrefixOf_iff_prefix] at h
  obtain ⟨t, rfl⟩ := h
  exact List.mem_append_left t hc

theorem append_inj_of_ne {p : GoStr} {c d : Char} {x y : GoStr} (hcd : c ≠ d) :
    p ++ c :: x ≠ p ++ d :: y := by
  intro h
  have := List.append_cancel_left h
  simp only [List.cons.injEq] at this
  exact hcd this.1

/-! ## Facts about `splitC` -/

theorem splitC_ne_nil (sep : Char) (s : GoStr) : splitC sep s ≠ [] := by
  induction s with
  | nil => simp [splitC]
  | cons c rest ih =>
    unfold splitC
    cases h : splitC sep rest with
    | nil => exact absurd h ih
    | cons g gss =>
      dsimp only
      split <;> simp

theorem splitC_sep_not_mem (sep : Char) (s : GoStr) :
    ∀ g ∈ splitC sep s, sep ∉ g := by
  induction s with
  | nil =>
    intro g hg
    simp [splitC] at hg
    simp [hg]
  | cons c rest ih =>
    intro g hg
    unfold splitC at hg
    cases h : splitC sep rest with
    | nil => exact absurd h (splitC_ne_nil sep rest)
    | cons g0 gss =>
      rw [h] at hg
      dsimp only at hg
      by_cases hc : c = sep
      · simp only [if_pos hc] at hg
        rcases List.mem_cons.mp hg with h1 | h1
        · simp [h1]
        · exact ih g (h ▸ h1)
      · simp only [if_neg hc] at hg
        rcases List.mem_cons.mp hg with h1 | h1
        · subst h1
          intro hmem
          rcases List.mem_cons.mp hmem with h2 | h2
          · exact hc h2.symm
          · exact ih g0 (h ▸ List.mem_cons_self g0 gss) h2
        · exact ih g (h ▸ List.mem_cons.mpr (Or.inr h1))

theorem wsum_splitC (sep : Char) (s : GoStr) :
    wsum (splitC sep s) = s.length + 1 := by
  induction s with
  | nil => simp [splitC, wsum]
  | cons c rest ih =>
    unfold splitC
    cases h : splitC sep rest with
    | nil => exact absurd h (splitC_ne_nil sep rest)
    | cons g0 gss =>
      rw [h] at ih
      dsimp only
      split
      all_goals simp only [wsum, List.map_cons, List.sum_cons, List.length_nil,
        List.length_cons] at ih ⊢
      all_goals omega

/-! ## Facts about `cleanPush` and `cleanStack` -/

theorem cleanPush_wf {rooted : Bool} {acc : List GoStr} {c : GoStr}
    (hacc : ∀ g ∈ acc, CompOk g) (hc : '/' ∉ c) :
    ∀ g ∈ cleanPush rooted acc c, CompOk g := by
  intro g hg
  unfold cleanPush at hg
  by_cases h1 : c = [] ∨ c = gs "."
  · exact hacc g (by simpa [h1] using hg)
  · rw [if_neg h1] at hg
    by_cases h2 : c = gs ".."
    · rw [if_pos h2] at hg
      cases acc with
      | nil =>
        dsimp only at hg
        by_cases hr : rooted = true
        · simp [hr] at hg
        · rw [Bool.not_eq_true] at hr
          subst hr
          simp only [Bool.false_eq_true, if_false, List.mem_singleton] at hg
          subst hg
          exact ⟨by simp [h2, gs], hc⟩
      | cons a rest =>
        dsimp only at hg
        by_cases ha : a = gs ".."
        · rw [if_pos ha] at hg
          rcases List.mem_cons.mp hg with h3 | h3
          · subst h3; exact ⟨by simp [h2, gs], hc⟩
          · exact hacc g h3
        · rw [if_neg ha] at hg
          exact hacc g (List.mem_cons.mpr (Or.inr hg))
    · rw [if_neg h2] at hg
      rcases List.mem_cons.mp hg with h3 | h3
      · subst h3
        refine ⟨?_, hc⟩
        intro hnil
        exact h1 (Or.inl hnil)
      · exact hacc g h3

theorem foldl_cleanPush_wf (rooted : Bool) (comps : List GoStr) (acc : List GoStr)
    (hacc : ∀ g ∈ acc, CompOk g) (hcomps : ∀ g ∈ comps, '/' ∉ g) :
    ∀ g ∈ comps.foldl (cleanPush rooted) acc, CompOk g := by
  induction comps generalizing acc with
  | nil => exact hacc
  | cons c rest ih =>
    simp only [List.foldl_cons]
    exact ih (cleanPush rooted acc c)
      (cleanPush_wf hacc (hcomps c (List.mem_cons_self c rest)))
      (fun g hg => hcomps g (List.mem_cons.mpr (Or.inr hg)))

theorem cleanStack_wf (rooted : Bool) (comps : List GoStr)
    (hcomps : ∀ g ∈ comps, '/' ∉ g) :
    ∀ g ∈ cleanStack rooted comps, CompOk g := by
  intro g hg
  rw [cleanStack, List.mem_reverse] at hg
  exact foldl_cleanPush_wf rooted comps [] (by simp) hcomps g hg

theorem wsum_cleanPush (rooted : Bool) (acc : List GoStr) (c : GoStr) :
    wsum (cleanPush rooted acc c) ≤ wsum acc + (c.length + 1) := by
  unfold cleanPush
  by_cases h1 : c = [] ∨ c = gs "."
  · rw [if_pos h1]; omega
  · rw [if_neg h1]
    by_cases h2 : c = gs ".."
    · rw [if_pos h2]
      cases acc with
      | nil =>
        dsimp only
        cases rooted <;> simp [wsum]
      | cons a rest =>
        dsimp only
        by_cases ha : a = gs ".."
        · simp only [if_pos ha, wsum, List.map_cons, List.sum_cons]
          omega
        · simp only [if_neg ha, wsum, List.map_cons, List.sum_cons]
          omega
    · rw [if_neg h2]
      simp only [wsum, List.map_cons, List.sum_cons]
      omega

theorem wsum_foldl_cleanPush (rooted : Bool) (comps : List GoStr) (acc : List GoStr) :
    wsum (comps.foldl (cleanPush rooted) acc) ≤ wsum acc + wsum comps := by
  induction comps generalizing acc with
  | nil => simp [wsum]
  | cons c rest ih =>
    simp only [List.foldl_cons]
    calc wsum ((rest.foldl (cleanPush rooted)) (cleanPush rooted acc c))
        ≤ wsum (cleanPush rooted acc c) + wsum rest := ih _
      _ ≤ (wsum acc + (c.length + 1)) + wsum rest := by
          have := wsum_cleanPush rooted acc c; omega
      _ = wsum acc + wsum (c :: rest) := by
          simp only [wsum, List.map_cons, List.sum_cons]; omega

theorem wsum_cleanStack (rooted : Bool) (comps : List GoStr) :
    wsum (cleanStack rooted comps) ≤ wsum comps := by
  have h1 : wsum (cleanStack rooted comps) = wsum (comps.foldl (cleanPush rooted) []) := by
    simp [cleanStack, wsum, List.map_reverse, List.sum_reverse]
  rw [h1]
  have := wsum_foldl_cleanPush rooted comps []
  simpa [wsum] using this

/-! ## Facts about `renderRel`, `render` and `clean` -/

theorem renderRel_ne_nil {comps : List GoStr} (h : ∀ g ∈ comps, CompOk g)
    (hne : comps ≠ []) : renderRel comps ≠ [] := by
  cases comps with
  | nil => exact absurd rfl hne
  | cons g t =>
    cases t with
    | nil =>
      simpa [renderRel] using (h g (by simp)).1
    | cons g2 t2 =>
      simp only [renderRel]
      intro hx
      exact (h g (by simp)).1 (List.append_eq_nil.mp hx).1

theorem renderRel_getLast?_ne_slash {comps : List GoStr} (h : ∀ g ∈ comps, CompOk g)
    (hne : comps ≠ []) : (renderRel comps).getLast? ≠ some '/' := by
  induction comps with
  | nil => exact absurd rfl hne
  | cons g t ih =>
    cases t with
    | nil =>
      simp only [renderRel]
      intro hx
      exact (h g (by simp)).2 (mem_of_getLast?_eq_some hx)
    | cons g2 t2 =>
      simp only [renderRel]
      have hrr : renderRel (g2 :: t2) ≠ [] :=
        renderRel_ne_nil (fun x hx => h x (List.mem_cons.mpr (Or.inr hx))) (by simp)
      rw [getLast?_append_right g (by simp)]
      have hsplit : ('/' :: renderRel (g2 :: t2)) = ['/'] ++ renderRel (g2 :: t2) := rfl
      rw [hsplit, getLast?_append_right _ hrr]
      exact ih (fun x hx => h x (List.mem_cons.mpr (Or.inr hx))) (by simp)

theorem renderRel_head? {g : GoStr} {t : List GoStr} (hg : g ≠ []) :
    (renderRel (g :: t)).head? = g.head? := by
  cases t with
  | nil => rfl
  | cons g2 t2 =>
    simp only [renderRel]
    exact head?_append_left _ hg

theorem render_ne_nil (rooted : Bool) (comps : List GoStr)
    (h : ∀ g ∈ comps, CompOk g) : render rooted comps ≠ [] := by
  unfold render
  cases rooted with
  | true => simp
  | false =>
    simp only [Bool.false_eq_true, if_false]
    by_cases hc : comps = []
    · simp [hc, gs]
    · rw [if_neg hc]
      exact renderRel_ne_nil h hc

theorem render_getLast?_slash {rooted : Bool} {comps : List GoStr}
    (h : ∀ g ∈ comps, CompOk g)
    (hl : (render rooted comps).getLast? = some '/') :
    rooted = true ∧ comps = [] := by
  unfold render at hl
  cases rooted with
  | true =>
    simp only [if_true] at hl
    by_cases hc : comps = []
    · exact ⟨rfl, hc⟩
    · exfalso
      have hrr : renderRel comps ≠ [] := renderRel_ne_nil h hc
      have hsplit : ('/' :: renderRel comps) = ['/'] ++ renderRel comps := rfl
      rw [hsplit, getLast?_append_right _ hrr] at hl
      exact renderRel_getLast?_ne_slash h hc hl
  | false =>
    exfalso
    simp only [Bool.false_eq_true, if_false] at hl
    by_cases hc : comps = []
    · rw [if_pos hc] at hl
      simp [gs] at hl
    · rw [if_neg hc] at hl
      exact renderRel_getLast?_ne_slash h hc hl

theorem clean_ne_nil (s : GoStr) : clean s ≠ [] := by
  unfold clean
  by_cases hs : s = []
  · simp [hs, gs]
  · rw [if_neg hs]
    exact render_ne_nil _ _ (cleanStack_wf _ _ (splitC_sep_not_mem '/' s))

theorem clean_getLast?_slash {s : GoStr} (h : (clean s).getLast? = some '/') :
    clean s = gs "/" := by
  unfold clean at h ⊢
  by_cases hs : s = []
  · simp [hs, gs] at h
  · rw [if_neg hs] at h ⊢
    have hwf := cleanStack_wf (decide (s.head? = some '/')) (splitC '/' s)
      (splitC_sep_not_mem '/' s)
    obtain ⟨hr, hc⟩ := render_getLast?_slash hwf h
    rw [hc, hr]
    rfl

theorem clean_head?_slash (s : GoStr) :
    ((clean s).head? = some '/') ↔ (s.head? = some '/') := by
  unfold clean
  by_cases hs : s = []
  · simp [hs, gs]
  · rw [if_neg hs]
    have hwf := cleanStack_wf (decide (s.head? = some '/')) (splitC '/' s)
      (splitC_sep_not_mem '/' s)
    by_cases hh : s.head? = some '/'
    · simp only [hh, iff_true]
      simp [render, hh]
    · have hd : decide (s.head? = some '/') = false := by simp [hh]
      rw [hd] at hwf
      rw [hd]
      simp only [hh, iff_false]
      unfold render
      simp only [Bool.false_eq_true, if_false]
      by_cases hc : cleanStack false (splitC '/' s) = []
      · rw [if_pos hc]
        simp [gs]
      · rw [if_neg hc]
        cases hcs : cleanStack false (splitC '/' s) with
        | nil => exact absurd hcs hc
        | cons g t =>
          have hg := hwf g (by rw [hcs]; simp)
          rw [renderRel_head? hg.1]
          intro hx
          apply hg.2
          cases g with
          | nil => exact absurd rfl hg.1
          | cons a b =>
            simp only [List.head?_cons, Option.some_inj] at hx
            rw [hx]
            simp

theorem renderRel_length_wsum (l : List GoStr) (h : l ≠ []) :
    (renderRel l).length + 1 ≤ wsum l := by
  induction l with
  | nil => exact absurd rfl h
  | cons g t ih =>
    cases t with
    | nil => simp [renderRel, wsum]
    | cons g2 t2 =>
      simp only [renderRel, List.length_append, List.length_cons]
      have := ih (by simp)
      simp only [wsum, List.map_cons, List.sum_cons] at this ⊢
      omega

theorem clean_length_le (s : GoStr) : (clean s).length ≤ s.length + 1 := by
  unfold clean
  by_cases hs : s = []
  · simp [hs, gs]
  · rw [if_neg hs]
    have hws : wsum (cleanStack (decide (s.head? = some '/')) (splitC '/' s))
        ≤ s.length + 1 := by
      have h1 := wsum_cleanStack (decide (s.head? = some '/')) (splitC '/' s)
      rw [wsum_splitC] at h1
      exact h1
    unfold render
    cases hd : decide (s.head? = some '/') with
    | true =>
      rw [hd] at hws
      simp only [if_true, List.length_cons]
      by_cases hcc : cleanStack true (splitC '/' s) = []
      · rw [hcc]
        simp [renderRel]
      · have := renderRel_length_wsum _ hcc
        omega
    | false =>
      rw [hd] at hws
      simp only [Bool.false_eq_true, if_false]
      by_cases hcc : cleanStack false (splitC '/' s) = []
      · rw [if_pos hcc]
        simp [gs]
      · rw [if_neg hcc]
        have := renderRel_length_wsum _ hcc
        omega

/-! ## Clean images, suffixes, and path-shape facts -/

theorem IsCleanImg.ne_nil {j : GoStr} (h : IsCleanImg j) : j ≠ [] := by
  obtain ⟨s, rfl⟩ := h
  exact clean_ne_nil s

theorem IsCleanImg.getLast?_ne_slash {j : GoStr} (h : IsCleanImg j) (hj : j ≠ gs "/") :
    j.getLast? ≠ some '/' := by
  obtain ⟨s, rfl⟩ := h
  exact fun hx => hj (clean_getLast?_slash hx)

theorem isCleanImg_goJoin {a b : GoStr} (ha : a ≠ []) : IsCleanImg (goJoin a b) := by
  unfold goJoin
  rw [if_neg (fun h => ha h.1), if_neg ha]
  by_cases hb : b = []
  · rw [if_pos hb]
    exact ⟨a, rfl⟩
  · rw [if_neg hb]
    exact ⟨a ++ '/' :: b, rfl⟩

theorem goHasSuffix_slash_iff (p : GoStr) :
    goHasSuffix p (gs "/") = true ↔ p.getLast? = some '/' := by
  unfold goHasSuffix
  rw [List.isSuffixOf_iff_suffix]
  constructor
  · rintro ⟨t, rfl⟩
    rw [getLast?_append_right t (by simp [gs])]
    rfl
  · intro h
    have hne : p ≠ [] := by
      intro e
      rw [e] at h
      simp at h
    refine ⟨p.dropLast, ?_⟩
    have h2 := List.dropLast_append_getLast hne
    rw [List.getLast?_eq_getLast p hne, Option.some_inj] at h
    calc p.dropLast ++ gs "/" = p.dropLast ++ [p.getLast hne] := by rw [h]; rfl
      _ = p := h2

theorem goHasSuffix_decomp {p suf : GoStr} (h : goHasSuffix p suf = true) :
    p = goTrimSuffix p suf ++ suf := by
  unfold goHasSuffix at h
  unfold goTrimSuffix
  rw [if_pos h]
  rw [List.isSuffixOf_iff_suffix] at h
  obtain ⟨t, rfl⟩ := h
  rw [List.length_append, Nat.add_sub_cancel, List.take_left]

theorem goTrimSuffix_append (x suf : GoStr) : goTrimSuffix (x ++ suf) suf = x := by
  unfold goTrimSuffix
  rw [if_pos (List.isSuffixOf_iff_suffix.mpr ⟨x, rfl⟩)]
  rw [List.length_append, Nat.add_sub_cancel, List.take_left]

theorem upToLastSlash_ne_nil {j : GoStr} (h : '/' ∈ j) : upToLastSlash j ≠ [] := by
  unfold upToLastSlash
  intro hx
  rw [List.reverse_eq_nil_iff, List.dropWhile_eq_nil_iff] at hx
  have := hx '/' (List.mem_reverse.mpr h)
  simp at this

theorem upToLastSlash_isPre (j : GoStr) : upToLastSlash j <+: j := by
  unfold upToLastSlash
  have h : List.dropWhile (fun c => decide (c ≠ '/')) j.reverse <:+ j.reverse :=
    List.dropWhile_suffix _
  rw [← List.reverse_prefix] at h
  simpa using h

theorem upToLastSlash_head? {j : GoStr} (h : upToLastSlash j ≠ []) :
    (upToLastSlash j).head? = j.head? := by
  obtain ⟨t, ht⟩ := upToLastSlash_isPre j
  conv_rhs => rw [← ht]
  exact (head?_append_left t h).symm

theorem upToLastSlash_length_le (j : GoStr) : (upToLastSlash j).length ≤ j.length :=
  (upToLastSlash_isPre j).length_le

theorem goDir_length_le (p : GoStr) : (goDir p).length ≤ p.length + 1 := by
  unfold goDir
  calc (clean (upToLastSlash p)).length ≤ (upToLastSlash p).length + 1 :=
        clean_length_le _
    _ ≤ p.length + 1 := by have := upToLastSlash_length_le p; omega

/-! ## Lengths and shapes of the derived staging / backup paths -/

theorem goTrimSuffix_of_not_suffix {p suf : GoStr} (h : goHasSuffix p suf = false) :
    goTrimSuffix p suf = p := by
  unfold goHasSuffix at h
  unfold goTrimSuffix
  rw [h]
  rfl

theorem length_getTempPath_file {id target : GoStr}
    (hs : goHasSuffix target (gs "/") = false) :
    (getTempPath id target).length = target.length + id.length + 5 := by
  unfold getTempPath
  rw [hs]
  simp [gs]
  omega

theorem length_goTrimSuffix_dir {target : GoStr}
    (hs : goHasSuffix target (gs "/") = true) :
    target.length = (goTrimSuffix target (gs "/")).length + 1 := by
  conv_lhs => rw [goHasSuffix_decomp hs]
  rw [List.length_append]
  have h1 : (gs "/").length = 1 := rfl
  omega

theorem length_getTempPath_dir {id target : GoStr}
    (hs : goHasSuffix target (gs "/") = true) :
    (getTempPath id target).length = target.length + id.length + 5 := by
  unfold getTempPath
  rw [hs]
  have hlen := length_goTrimSuffix_dir hs
  simp only [if_true, List.length_append]
  have h1 : (gs "-").length = 1 := rfl
  have h2 : (gs "-tmp/").length = 5 := rfl
  omega

theorem length_getBackupPath_file {id target : GoStr}
    (hs : goHasSuffix target (gs "/") = false) :
    (getBackupPath id target).length = target.length + id.length + 8 := by
  unfold getBackupPath
  rw [hs]
  simp [gs]
  omega

theorem length_getBackupPath_dir {id target : GoStr}
    (hs : goHasSuffix target (gs "/") = true) :
    (getBackupPath id target).length = target.length + id.length + 8 := by
  unfold getBackupPath
  rw [hs]
  have hlen := length_goTrimSuffix_dir hs
  simp only [if_true, List.length_append]
  have h1 : (gs ".").length = 1 := rfl
  have h2 : (gs "-backup/").length = 8 := rfl
  omega

theorem length_getTempPath (id target : GoStr) :
    (getTempPath id target).length = target.length + id.length + 5 := by
  cases hs : goHasSuffix target (gs "/") with
  | false => exact length_getTempPath_file hs
  | true => exact length_getTempPath_dir hs

theorem length_getBackupPath (id target : GoStr) :
    (getBackupPath id target).length = target.length + id.length + 8 := by
  cases hs : goHasSuffix target (gs "/") with
  | false => exact length_getBackupPath_file hs
  | true => exact length_getBackupPath_dir hs

theorem getTempPath_ne_target (id target : GoStr) : getTempPath id target ≠ target := by
  apply ne_of_length_ne
  rw [length_getTempPath]
  omega

theorem getBackupPath_ne_target (id target : GoStr) : getBackupPath id target ≠ target := by
  apply ne_of_length_ne
  rw [length_getBackupPath]
  omega

theorem getTempPath_ne_getBackupPath (id target : GoStr) :
    getTempPath id target ≠ getBackupPath id target := by
  apply ne_of_length_ne
  rw [length_getTempPath, length_getBackupPath]
  omega

theorem goDir_target_ne_getTempPath (id target : GoStr) :
    goDir target ≠ getTempPath id target := by
  apply ne_of_length_ne
  rw [length_getTempPath]
  have := goDir_length_le target
  omega

theorem goDir_target_ne_getBackupPath (id target : GoStr) :
    goDir target ≠ getBackupPath id target := by
  apply ne_of_length_ne
  rw [length_getBackupPath]
  have := goDir_length_le target
  omega

theorem getBackupPath_getLast?_dir {id target : GoStr}
    (hs : goHasSuffix target (gs "/") = true) :
    (getBackupPath id target).getLast? = some '/' := by
  unfold getBackupPath
  rw [hs]
  simp only [if_true]
  rw [getLast?_append_right _ (by simp [gs] : gs "-backup/" ≠ [])]
  rfl

theorem getTempPath_getLast?_file {id target : GoStr}
    (hs : goHasSuffix target (gs "/") = false) :
    (getTempPath id target).getLast? = some 'p' := by
  unfold getTempPath
  rw [hs]
  simp only [Bool.false_eq_true, if_false]
  rw [getLast?_append_right _ (by simp [gs] : gs "-tmp" ≠ [])]
  rfl

theorem getBackupPath_getLast?_file {id target : GoStr}
    (hs : goHasSuffix target (gs "/") = false) :
    (getBackupPath id target).getLast? = some 'p' := by
  unfold getBackupPath
  rw [hs]
  simp only [Bool.false_eq_true, if_false]
  rw [getLast?_append_right _ (by simp [gs] : gs "-backup" ≠ [])]
  rfl

theorem getTempPath_noSlashSuffix_file {id target : GoStr}
    (hs : goHasSuffix target (gs "/") = false) :
    goHasSuffix (getTempPath id target) (gs "/") = false := by
  rw [Bool.eq_false_iff]
  intro hx
  have := (goHasSuffix_slash_iff _).mp hx
  rw [getTempPath_getLast?_file hs] at this
  simp at this

theorem getBackupPath_noSlashSuffix_file {id target : GoStr}
    (hs : goHasSuffix target (gs "/") = false) :
    goHasSuffix (getBackupPath id target) (gs "/") = false := by
  rw [Bool.eq_false_iff]
  intro hx
  have := (goHasSuffix_slash_iff _).mp hx
  rw [getBackupPath_getLast?_file hs] at this
  simp at this

/-! ## Keys touched by tar extraction stay away from target and backup paths -/

theorem getTempPath_head?_of_root {id target : GoStr}
    (hs : goHasSuffix target (gs "/") = true)
    (hb : goTrimSuffix target (gs "/") = []) :
    (getTempPath id target).head? = some '-' := by
  unfold getTempPath
  rw [hs]
  simp only [if_true, hb, List.nil_append]
  have h1 : gs "-" ++ id ++ gs "-tmp/" = '-' :: (id ++ gs "-tmp/") := by
    simp [gs]
  rw [h1]
  rfl

theorem keyJ_ne_slash {troot q : GoStr} (h : KeyJ troot q) :
    q ≠ gs "/" ∧ q.getLast? ≠ some '/' := by
  obtain ⟨himg, hpre⟩ := h
  have hlen := length_le_of_isPrefixOf hpre
  rw [List.length_append] at hlen
  have hct : 1 ≤ (clean troot).length :=
    List.length_pos.mpr (clean_ne_nil troot)
  have hq : q ≠ gs "/" := by
    intro e
    rw [e] at hlen
    have h1 : (gs "/").length = 1 := rfl
    omega
  exact ⟨hq, himg.getLast?_ne_slash hq⟩

theorem keyTouched_ne_dir {id target q : GoStr}
    (hs : goHasSuffix target (gs "/") = true)
    (h : KeyTouched (getTempPath id target) q) :
    q ≠ target ∧ q ≠ getBackupPath id target := by
  have htl : target.getLast? = some '/' := (goHasSuffix_slash_iff target).mp hs
  have hbl := @getBackupPath_getLast?_dir id target hs
  have htne : target ≠ [] := by
    intro e
    rw [e] at htl
    simp at htl
  rcases h with hk | ⟨j, hkj, rfl⟩
  · obtain ⟨hq, hql⟩ := keyJ_ne_slash hk
    exact ⟨fun e => hql (e ▸ htl), fun e => hql (e ▸ hbl)⟩
  · have himg : IsCleanImg (goDir j) := ⟨upToLastSlash j, rfl⟩
    by_cases hdj : goDir j = gs "/"
    · constructor
      · intro e
        -- then target = "/", so the temp path is relative and cannot yield "/"
        have hb : goTrimSuffix target (gs "/") = [] := by
          have h1 : target.length = 1 := by
            rw [← e, hdj]
            rfl
          have h2 := length_goTrimSuffix_dir hs
          exact List.length_eq_zero.mp (by omega)
        have hth := @getTempPath_head?_of_root id target hs hb
        obtain ⟨himgj, hpre⟩ := hkj
        have hcnn : clean (getTempPath id target) ≠ [] := clean_ne_nil _
        have hjh : j.head? = (clean (getTempPath id target)).head? := by
          rw [head?_of_isPrefixOf hpre
            (List.append_ne_nil_of_right_ne_nil _ (by simp [gs]))]
          exact head?_append_left _ hcnn
        have hsl : '/' ∈ j :=
          mem_of_mem_isPrefixOf hpre
            (List.mem_append.mpr (Or.inr (by simp [gs])))
        have hup := upToLastSlash_ne_nil hsl
        have hgh : (goDir j).head? = some '/' := by
          rw [hdj]
          rfl
        unfold goDir at hgh
        have h3 := (clean_head?_slash (upToLastSlash j)).mp hgh
        rw [upToLastSlash_head? hup, hjh] at h3
        have h4 := (clean_head?_slash (getTempPath id target)).mp h3
        rw [hth] at h4
        simp at h4
      · rw [hdj]
        intro e
        have h1 : (gs "/").length = 1 := rfl
        have h2 := @length_getBackupPath_dir id target hs
        have h3 : 1 ≤ target.length := List.length_pos.mpr htne
        have := congrArg List.length e
        omega
    · have hql := himg.getLast?_ne_slash hdj
      exact ⟨fun e => hql (e ▸ htl), fun e => hql (e ▸ hbl)⟩

theorem extractTar_touch (troot : GoStr) (htr : troot ≠ []) (items : List TarItem) :
    ∀ fs : FS,
      (∀ q, (extractTar fs troot items).fs.files q ≠ fs.files q → KeyJ troot q) ∧
      (∀ q, (extractTar fs troot items).fs.dirs q ≠ fs.dirs q → KeyTouched troot q) ∧
      (∀ a ∈ (extractTar fs troot items).tr,
        ∃ q, (a = FsAction.mkdirA q ∨ a = FsAction.writeA q) ∧ KeyTouched troot q) := by
  induction items with
  | nil =>
    intro fs
    refine ⟨?_, ?_, ?_⟩ <;> simp [extractTar]
  | cons it rest ih =>
    intro fs
    cases it with
    | corrupt =>
      refine ⟨?_, ?_, ?_⟩ <;> simp [extractTar]
    | entry e =>
      obtain ⟨nm, tf, ct⟩ := e
      by_cases hpre : ((clean troot ++ gs "/").isPrefixOf (goJoin troot nm)) = true
      · have hKJ : KeyJ troot (goJoin troot nm) := ⟨isCleanImg_goJoin htr, hpre⟩
        cases tf with
        | dir =>
          have hred : extractTar fs troot (TarItem.entry ⟨nm, TarType.dir, ct⟩ :: rest) =
              ⟨(extractTar (mkdirAll fs (goJoin troot nm)) troot rest).fs,
               (extractTar (mkdirAll fs (goJoin troot nm)) troot rest).err,
               FsAction.mkdirA (goJoin troot nm) ::
                 (extractTar (mkdirAll fs (goJoin troot nm)) troot rest).tr⟩ := by
            simp only [extractTar]
            rw [if_neg (by simpa using hpre)]
          rw [hred]
          obtain ⟨ihf, ihd, iht⟩ := ih (mkdirAll fs (goJoin troot nm))
          refine ⟨?_, ?_, ?_⟩
          · intro q hq
            exact ihf q hq
          · intro q hq
            by_cases hq2 : (extractTar (mkdirAll fs (goJoin troot nm)) troot rest).fs.dirs q
                = (mkdirAll fs (goJoin troot nm)).dirs q
            · rw [hq2] at hq
              simp only [mkdirAll] at hq
              by_cases hqt : q = goJoin troot nm
              · exact Or.inl (hqt ▸ hKJ)
              · rw [if_neg hqt] at hq
                exact absurd rfl hq
            · exact ihd q hq2
          · intro a ha
            rcases List.mem_cons.mp ha with h1 | h1
            · exact ⟨goJoin troot nm, Or.inl h1, Or.inl hKJ⟩
            · exact iht a h1
        | reg =>
          have hred : extractTar fs troot (TarItem.entry ⟨nm, TarType.reg, ct⟩ :: rest) =
              ⟨(extractTar (setFile (mkdirAll fs (goDir (goJoin troot nm)))
                  (goJoin troot nm) ct) troot rest).fs,
               (extractTar (setFile (mkdirAll fs (goDir (goJoin troot nm)))
                  (goJoin troot nm) ct) troot rest).err,
               FsAction.mkdirA (goDir (goJoin troot nm)) ::
                 FsAction.writeA (goJoin troot nm) ::
                 (extractTar (setFile (mkdirAll fs (goDir (goJoin troot nm)))
                    (goJoin troot nm) ct) troot rest).tr⟩ := by
            simp only [extractTar]
            rw [if_neg (by simpa using hpre)]
          rw [hred]
          obtain ⟨ihf, ihd, iht⟩ :=
            ih (setFile (mkdirAll fs (goDir (goJoin troot nm))) (goJoin troot nm) ct)
          have hdirKT : KeyTouched troot (goDir (goJoin troot nm)) :=
            Or.inr ⟨goJoin troot nm, hKJ, rfl⟩
          refine ⟨?_, ?_, ?_⟩
          · intro q hq
            by_cases hq2 : (extractTar (setFile (mkdirAll fs (goDir (goJoin troot nm)))
                  (goJoin troot nm) ct) troot rest).fs.files q
                = (setFile (mkdirAll fs (goDir (goJoin troot nm))) (goJoin troot nm) ct).files q
            · rw [hq2] at hq
              simp only [setFile, mkdirAll] at hq
              by_cases hqt : q = goJoin troot nm
              · exact hqt ▸ hKJ
              · rw [if_neg hqt] at hq
                exact absurd rfl hq
            · exact ihf q hq2
          · intro q hq
            by_cases hq2 : (extractTar (setFile (mkdirAll fs (goDir (goJoin troot nm)))
                  (goJoin troot nm) ct) troot rest).fs.dirs q
                = (setFile (mkdirAll fs (goDir (goJoin troot nm))) (goJoin troot nm) ct).dirs q
            · rw [hq2] at hq
              simp only [setFile, mkdirAll] at hq
              by_cases hqt : q = goDir (goJoin troot nm)
              · exact hqt ▸ hdirKT
              · rw [if_neg hqt] at hq
                exact absurd rfl hq
            · exact ihd q hq2
          · intro a ha
            rcases List.mem_cons.mp ha with h1 | h1
            · exact ⟨goDir (goJoin troot nm), Or.inl h1, hdirKT⟩
            · rcases List.mem_cons.mp h1 with h2 | h2
              · exact ⟨goJoin troot nm, Or.inr h2, Or.inl hKJ⟩
              · exact iht a h2
        | other =>
          have hred : extractTar fs troot (TarItem.entry ⟨nm, TarType.other, ct⟩ :: rest) =
              extractTar fs troot rest := by
            simp only [extractTar]
            rw [if_neg (by simpa using hpre)]
          rw [hred]
          exact ih fs
      · have hred : extractTar fs troot (TarItem.entry ⟨nm, tf, ct⟩ :: rest) =
            ⟨fs, some ⟨500, "security error: path traversal", ""⟩, []⟩ := by
          simp only [extractTar]
          rw [if_pos (by simpa using hpre)]
        rw [hred]
        refine ⟨?_, ?_, ?_⟩ <;> simp

theorem extractTar_err_of_bad (troot : GoStr) (items : List TarItem) :
    ∀ fs : FS,
      (∃ e : TarEntry, TarItem.entry e ∈ items ∧
        ((clean troot ++ gs "/").isPrefixOf (goJoin troot e.name)) = false) →
      ∃ err, (extractTar fs troot items).err = some err ∧ err.StatusCode = 500 := by
  induction items with
  | nil =>
    rintro fs ⟨e, hmem, _⟩
    simp at hmem
  | cons it rest ih =>
    rintro fs ⟨e, hmem, hbad⟩
    cases it with
    | corrupt =>
      exact ⟨⟨500, "failed to extract tar", ""⟩, by simp [extractTar], rfl⟩
    | entry e0 =>
      obtain ⟨nm, tf, ct⟩ := e0
      by_cases hpre : ((clean troot ++ gs "/").isPrefixOf (goJoin troot nm)) = true
      · have hrest : TarItem.entry e ∈ rest := by
          rcases List.mem_cons.mp hmem with h1 | h1
          · exfalso
            have he : e = ⟨nm, tf, ct⟩ := by
              injection h1
            rw [he] at hbad
            rw [hbad] at hpre
            simp at hpre
          · exact h1
        cases tf with
        | dir =>
          have hred : (extractTar fs troot (TarItem.entry ⟨nm, TarType.dir, ct⟩ :: rest)).err =
              (extractTar (mkdirAll fs (goJoin troot nm)) troot rest).err := by
            simp only [extractTar]
            rw [if_neg (by simpa using hpre)]
          simp only [hred]
          exact ih _ ⟨e, hrest, hbad⟩
        | reg =>
          have hred : (extractTar fs troot (TarItem.entry ⟨nm, TarType.reg, ct⟩ :: rest)).err =
              (extractTar (setFile (mkdirAll fs (goDir (goJoin troot nm)))
                (goJoin troot nm) ct) troot rest).err := by
            simp only [extractTar]
            rw [if_neg (by simpa using hpre)]
          simp only [hred]
          exact ih _ ⟨e, hrest, hbad⟩
        | other =>
          have hred : (extractTar fs troot (TarItem.entry ⟨nm, TarType.other, ct⟩ :: rest)).err =
              (extractTar fs troot rest).err := by
            simp only [extractTar]
            rw [if_neg (by simpa using hpre)]
          simp only [hred]
          exact ih _ ⟨e, hrest, hbad⟩
      · have hred : (extractTar fs troot (TarItem.entry ⟨nm, tf, ct⟩ :: rest)).err =
            some ⟨500, "security error: path traversal", ""⟩ := by
          simp only [extractTar]
          rw [if_pos (by simpa using hpre)]
        exact ⟨⟨500, "security error: path traversal", ""⟩, hred, rfl⟩

theorem extractTar_files_inside (fs : FS) (troot : GoStr) (htr : troot ≠ [])
    (items : List TarItem) :
    ∀ q, (extractTar fs troot items).fs.files q ≠ fs.files q →
      ((clean troot ++ gs "/").isPrefixOf q) = true := by
  intro q hq
  exact ((extractTar_touch troot htr items fs).1 q hq).2

/-! ## Claim C1 — tar path-traversal rejection -/

/-- C1 counterexample: the tar entry `../../etc/passwd` makes `extractTar`
abort with status 500 — a *server-class* error, not the client-class error the
claim states — and nothing is written at the escaped path. -/
theorem extractTar_traversal_status_counterexample :
    (extractTar emptyFS (gs "/stage-tmp")
      [TarItem.entry ⟨gs "../../etc/passwd", TarType.reg, gs "x"⟩]).err
        = some ⟨500, "security error: path traversal", ""⟩
  ∧ ¬ clientClass ⟨500, "security error: path traversal", ""⟩
  ∧ (extractTar emptyFS (gs "/stage-tmp")
      [TarItem.entry ⟨gs "../../etc/passwd", TarType.reg, gs "x"⟩]).fs.files
        (gs "/etc/passwd") = none := by
  decide

/-- C1 (amended): for every tar archive containing an entry whose name,
joined onto the staging root and canonicalized, falls outside the staging
root, `extractTar` aborts the whole extraction with an error (carrying
server-class status 500, not a client-class status), and no file is written
outside the staging root. -/
theorem extractTar_traversal_rejected (fs : FS) (target : GoStr) (htr : target ≠ [])
    (items : List TarItem)
    (hbad : ∃ e : TarEntry, TarItem.entry e ∈ items ∧
      ((clean target ++ gs "/").isPrefixOf (goJoin target e.name)) = false) :
    (∃ err, (extractTar fs target items).err = some err
      ∧ err.StatusCode = 500 ∧ ¬ clientClass err)
  ∧ ∀ q, (extractTar fs target items).fs.files q ≠ fs.files q →
      ((clean target ++ gs "/").isPrefixOf q) = true := by
  obtain ⟨err, he, hc⟩ := extractTar_err_of_bad target items fs hbad
  refine ⟨⟨err, he, hc, ?_⟩, extractTar_files_inside fs target htr items⟩
  intro hcc
  have h2 := hcc.2
  rw [hc] at h2
  omega

/-- C1 witness: the amended theorem applied at a concrete traversal archive. -/
theorem extractTar_traversal_rejected_witness :
    (extractTar emptyFS (gs "/st")
      [TarItem.entry ⟨gs "../evil", TarType.reg, gs "x"⟩]).err.isSome = true := by
  obtain ⟨⟨err, he, -, -⟩, -⟩ := extractTar_traversal_rejected emptyFS (gs "/st") (by decide)
    [TarItem.entry ⟨gs "../evil", TarType.reg, gs "x"⟩]
    ⟨⟨gs "../evil", TarType.reg, gs "x"⟩, by decide, by decide⟩
  rw [he]
  rfl

/-! ## Claim C6 — extractDirectory content-type policy -/

/-- C6: `extractDirectory` accepts exactly the six recognized tar / gzip-tar
content types (dispatching to plain-tar or gzip-tar extraction), and rejects
every other content type with a client-class 400 error before performing any
extraction or filesystem side effect. -/
theorem extractDirectory_contentType_policy (fs : FS) (target : GoStr) (r : Reader) :
    extractDirectory fs target r "application/x-tar" = extractTar fs target r.tarItems
  ∧ extractDirectory fs target r "application/tar" = extractTar fs target r.tarItems
  ∧ extractDirectory fs target r "application/x-tar+gzip" = extractTarGz fs target r
  ∧ extractDirectory fs target r "application/tar+gzip" = extractTarGz fs target r
  ∧ extractDirectory fs target r "application/x-gzip" = extractTarGz fs target r
  ∧ extractDirectory fs target r "application/gzip" = extractTarGz fs target r
  ∧ ∀ ct : String,
      ct ∉ (["application/x-tar", "application/tar", "application/x-tar+gzip",
        "application/tar+gzip", "application/x-gzip", "application/gzip"] : List String) →
      (extractDirectory fs target r ct).fs = fs
    ∧ (extractDirectory fs target r ct).tr = []
    ∧ ∃ e, (extractDirectory fs target r ct).err = some e
        ∧ e.StatusCode = 400 ∧ clientClass e := by
  refine ⟨rfl, rfl, rfl, rfl, rfl, rfl, ?_⟩
  intro ct hct
  simp only [List.mem_cons, List.not_mem_nil, or_false, not_or] at hct
  obtain ⟨h1, h2, h3, h4, h5, h6⟩ := hct
  unfold extractDirectory
  split
  · exact absurd rfl h1
  · exact absurd rfl h2
  · exact absurd rfl h3
  · exact absurd rfl h4
  · exact absurd rfl h5
  · exact absurd rfl h6
  · exact ⟨rfl, rfl, _, rfl, by decide⟩

/-- C6 witness: the policy theorem applied at a rejected content type. -/
theorem extractDirectory_contentType_policy_witness :
    (extractDirectory emptyFS (gs "/site/") ⟨[], [], none⟩ "text/plain").fs = emptyFS
  ∧ (extractDirectory emptyFS (gs "/site/") ⟨[], [], none⟩ "text/plain").tr = []
  ∧ ∃ e, (extractDirectory emptyFS (gs "/site/") ⟨[], [], none⟩ "text/plain").err = some e
      ∧ e.StatusCode = 400 ∧ clientClass e :=
  (extractDirectory_contentType_policy emptyFS (gs "/site/") ⟨[], [], none⟩).2.2.2.2.2.2
    "text/plain" (by decide)

/-! ## Claim C9 — exclusive-create single-file extraction -/

/-- C9: `extractFile` opens the destination exclusively for create: when the
destination already exists it fails without overwriting anything; when it
does not exist it creates the file with exactly the streamed bytes and leaves
every other path untouched. -/
theorem extractFile_excl_create (fs : FS) (p body : GoStr) :
    (statExists fs p = true →
      ((extractFile fs p body).err.isSome = true
        ∧ (extractFile fs p body).fs = fs))
  ∧ (statExists fs p = false →
      ((extractFile fs p body).err = none
        ∧ (extractFile fs p body).fs.files p = some body
        ∧ ∀ q, q ≠ p → (extractFile fs p body).fs.files q = fs.files q
            ∧ (extractFile fs p body).fs.dirs q = fs.dirs q)) := by
  constructor
  · intro h
    refine ⟨?_, ?_⟩ <;> simp [extractFile, h]
  · intro h
    refine ⟨?_, ?_, ?_⟩
    · simp [extractFile, h]
    · simp [extractFile, h, setFile]
    · intro q hq
      constructor
      · simp [extractFile, h, setFile, hq]
      · simp [extractFile, h, setFile]

/-- C9 witness: exclusive create fails on an occupied path and succeeds on a
fresh one. -/
theorem extractFile_excl_create_witness :
    ((extractFile (setFile emptyFS (gs "/t") (gs "old")) (gs "/t") (gs "new")).err.isSome
        = true)
  ∧ ((extractFile emptyFS (gs "/t") (gs "new")).err = none)
  ∧ ((extractFile (setFile emptyFS (gs "/t") (gs "old")) (gs "/t") (gs "new")).fs
        = setFile emptyFS (gs "/t") (gs "old"))
  ∧ ((extractFile emptyFS (gs "/t") (gs "new")).fs.files (gs "/t") = some (gs "new")) :=
  ⟨((extractFile_excl_create (setFile emptyFS (gs "/t") (gs "old")) (gs "/t")
      (gs "new")).1 (by decide)).1,
   ((extractFile_excl_create emptyFS (gs "/t") (gs "new")).2 (by decide)).1,
   ((extractFile_excl_create (setFile emptyFS (gs "/t") (gs "old")) (gs "/t")
      (gs "new")).1 (by decide)).2,
   ((extractFile_excl_create emptyFS (gs "/t") (gs "new")).2 (by decide)).2.1⟩

/-! ## Claim C5 — rollback with no backup is a successful no-op -/

/-- C5: when nothing exists at the backup path, `rollback` restores nothing,
mutates nothing, performs no filesystem action, and returns success (`nil`). -/
theorem rollback_no_backup (fs : FS) (id target : GoStr)
    (h : statExists fs (getBackupPath id target) = false) :
    rollback fs id target = (fs, none, []) := by
  unfold rollback
  rw [if_pos h]

/-- C5 witness: rollback on an empty filesystem is a successful no-op. -/
theorem rollback_no_backup_witness :
    rollback emptyFS (gs "tested") (gs "/path/to/file") = (emptyFS, none, []) :=
  rollback_no_backup emptyFS (gs "tested") (gs "/path/to/file") (by decide)

/-! ## Claim C7 — the response body carries the private diagnostic -/

/-- C7 (code-bug evidence): the `ServeHTTP` error tail writes `err.Error()` —
the private diagnostic message — into the response body for *every* error
class, even though it clears `err.Public` for server-class (≥ 500) statuses;
the public-safe message is never the body.  Shown in general and at a
concrete server-class failure carrying an internal path. -/
theorem serveHTTP_writes_private_message :
    (∀ e : ErrorDeployement, (respondError e).1 = e.Private)
  ∧ (respondError ⟨500, "failed to swap: /srv/site.abc-tmp", ""⟩).1
      = "failed to swap: /srv/site.abc-tmp"
  ∧ (respondError ⟨500, "failed to swap: /srv/site.abc-tmp", "oops"⟩).2.Public = ""
  ∧ (respondError ⟨404, "stat /srv/x: missing", "Not Found."⟩).1
      = "stat /srv/x: missing" := by
  refine ⟨?_, rfl, rfl, rfl⟩
  intro e
  unfold respondError ErrorDeployement.errorMsg
  split <;> rfl

theorem getTempPath_getLast?_dir {id target : GoStr}
    (hs : goHasSuffix target (gs "/") = true) :
    (getTempPath id target).getLast? = some '/' := by
  unfold getTempPath
  rw [hs]
  simp only [if_true]
  rw [getLast?_append_right _ (by simp [gs] : gs "-tmp/" ≠ [])]
  rfl

/-! ## Claim C3 — derived staging and backup paths -/

/-- C3 counterexample: the staging path joins the transaction id with `"-"`,
not `"."` — exactly the values pinned by the repository's own
`TestGetTempPathFile` / `TestGetTempPathDirectory`. -/
theorem getTempPath_separator_counterexample :
    getTempPath (gs "tested") (gs "/path/to/file")
        ≠ gs "/path/to/file" ++ gs "." ++ gs "tested" ++ gs "-tmp"
  ∧ getTempPath (gs "tested") (gs "/path/to/file") = gs "/path/to/file-tested-tmp"
  ∧ getTempPath (gs "tested") (gs "/path/to/dir/") = gs "/path/to/dir-tested-tmp/" := by
  decide

/-- C3 (amended): the backup path is `target + "." + id + "-backup"` as
claimed, but the staging path is `target + "-" + id + "-tmp"` (separator
`"-"`, not `"."`); a trailing path separator is preserved exactly when the
target ends in one. -/
theorem pathResolver_layout (id target : GoStr) :
    (goHasSuffix target (gs "/") = false →
        getTempPath id target = target ++ gs "-" ++ id ++ gs "-tmp"
      ∧ getBackupPath id target = target ++ gs "." ++ id ++ gs "-backup")
  ∧ (goHasSuffix target (gs "/") = true →
        getTempPath id target
            = goTrimSuffix target (gs "/") ++ gs "-" ++ id ++ gs "-tmp" ++ gs "/"
      ∧ getBackupPath id target
            = goTrimSuffix target (gs "/") ++ gs "." ++ id ++ gs "-backup" ++ gs "/")
  ∧ goHasSuffix (getTempPath id target) (gs "/") = goHasSuffix target (gs "/")
  ∧ goHasSuffix (getBackupPath id target) (gs "/") = goHasSuffix target (gs "/") := by
  refine ⟨?_, ?_, ?_, ?_⟩
  · intro hs
    unfold getTempPath getBackupPath
    rw [hs]
    exact ⟨rfl, rfl⟩
  · intro hs
    unfold getTempPath getBackupPath
    rw [hs]
    constructor
    · simp only [if_true, List.append_assoc]
      rfl
    · simp only [if_true, List.append_assoc]
      rfl
  · cases hs : goHasSuffix target (gs "/") with
    | false => exact getTempPath_noSlashSuffix_file hs
    | true =>
      rw [(goHasSuffix_slash_iff _).mpr (getTempPath_getLast?_dir hs)]
  · cases hs : goHasSuffix target (gs "/") with
    | false => exact getBackupPath_noSlashSuffix_file hs
    | true =>
      rw [(goHasSuffix_slash_iff _).mpr (getBackupPath_getLast?_dir hs)]

/-- C3 witness: the amended layout at concrete directory and file targets. -/
theorem pathResolver_layout_witness :
    getTempPath (gs "t") (gs "/d/")
        = goTrimSuffix (gs "/d/") (gs "/") ++ gs "-" ++ gs "t" ++ gs "-tmp" ++ gs "/"
  ∧ getBackupPath (gs "t") (gs "/f") = gs "/f" ++ gs "." ++ gs "t" ++ gs "-backup" :=
  ⟨((pathResolver_layout (gs "t") (gs "/d/")).2.1 (by decide)).1,
   ((pathResolver_layout (gs "t") (gs "/f")).1 (by decide)).2⟩

/-! ## Claim C10 — HandleDelete -/

/-- C10: deleting a nonexistent target yields a client-class 404 and leaves
the filesystem unchanged; deleting an existing target removes it (and its
subtree) recursively and returns success, with a server-class error exactly
when the removal itself fails. -/
theorem handleDelete_spec (fs : FS) (target : GoStr) (removeFails : Bool) :
    (statExists fs target = false →
        HandleDelete fs target removeFails
          = ⟨fs, some ⟨404, "trying to delete a target that does not exist",
              "Not Found."⟩, []⟩
      ∧ clientClass ⟨404, "trying to delete a target that does not exist", "Not Found."⟩)
  ∧ (statExists fs target = true → removeFails = false →
        (HandleDelete fs target removeFails).err = none
      ∧ (HandleDelete fs target removeFails).fs = removeAll fs target
      ∧ ∀ q, inTree target q = true →
            (HandleDelete fs target removeFails).fs.files q = none
          ∧ (HandleDelete fs target removeFails).fs.dirs q = false)
  ∧ (statExists fs target = true → removeFails = true →
        ∃ e, (HandleDelete fs target removeFails).err = some e ∧ 500 ≤ e.StatusCode) := by
  refine ⟨?_, ?_, ?_⟩
  · intro h
    refine ⟨?_, by decide⟩
    simp [HandleDelete, h]
  · intro h hrf
    subst hrf
    refine ⟨by simp [HandleDelete, h], by simp [HandleDelete, h], ?_⟩
    intro q hq
    constructor
    · simp [HandleDelete, h, removeAll, hq]
    · simp [HandleDelete, h, removeAll, hq]
  · intro h hrf
    subst hrf
    refine ⟨⟨500, "failed to delete target", ""⟩, ?_, by decide⟩
    simp [HandleDelete, h]

/-- C10 witness: the three branches at concrete filesystems. -/
theorem handleDelete_spec_witness :
    (HandleDelete emptyFS (gs "/x") false
        = ⟨emptyFS, some ⟨404, "trying to delete a target that does not exist",
            "Not Found."⟩, []⟩)
  ∧ ((HandleDelete (setFile emptyFS (gs "/x") (gs "c")) (gs "/x") false).err = none)
  ∧ ((HandleDelete (setFile emptyFS (gs "/x") (gs "c")) (gs "/x") true).err.isSome
      = true) := by
  refine ⟨((handleDelete_spec emptyFS (gs "/x") false).1 (by decide)).1,
    ((handleDelete_spec (setFile emptyFS (gs "/x") (gs "c")) (gs "/x") false).2.1
      (by decide) rfl).1, ?_⟩
  obtain ⟨e, he, _⟩ := (handleDelete_spec (setFile emptyFS (gs "/x") (gs "c"))
    (gs "/x") true).2.2 (by decide) rfl
  rw [he]
  rfl

/-! ## Claim C2 — swap failure handling in HandlePut -/

/-- C2 counterexample: with a cross-device-link failure injected into the
final swap rename, `HandlePut` does *not* fall back to a recursive copy — it
fails the request with a 500 and rolls back, restoring the old content. -/
theorem handlePut_crossDevice_counterexample :
    (HandlePut (setFile emptyFS (gs "/site/index.html") (gs "old")) (gs "id1")
        (gs "/site/index.html") ⟨gs "new", [], none⟩ "application/octet-stream"
        (some (gs "invalid cross-device link"))).err
      = some ⟨500, "failed to swap temporary directoy with target", ""⟩
  ∧ (HandlePut (setFile emptyFS (gs "/site/index.html") (gs "old")) (gs "id1")
        (gs "/site/index.html") ⟨gs "new", [], none⟩ "application/octet-stream"
        (some (gs "invalid cross-device link"))).fs.files (gs "/site/index.html")
      = some (gs "old")
  ∧ FsAction.rollbackA (gs "id1") (gs "/site/index.html")
      ∈ (HandlePut (setFile emptyFS (gs "/site/index.html") (gs "old")) (gs "id1")
          (gs "/site/index.html") ⟨gs "new", [], none⟩ "application/octet-stream"
          (some (gs "invalid cross-device link"))).tr := by
  decide

/-- C2 (amended): in `HandlePut` every failure of the final swap rename —
a cross-device-link failure included — triggers rollback immediately and
fails the request with a server-class 500 error; the behaviour does not
depend on the failure message at all (there is no recursive-copy fallback;
that fallback exists only in the legacy `StaticSiteDeployer.ServeHTTP`). -/
theorem handlePut_swap_failure_rolls_back (fs : FS) (id target : GoStr) (r : Reader)
    (ct : String) (msg : GoStr)
    (hext : (extractPhase fs id target r ct).err = none) :
    (HandlePut fs id target r ct (some msg)).err
        = some ⟨500, "failed to swap temporary directoy with target", ""⟩
  ∧ FsAction.rollbackA id target ∈ (HandlePut fs id target r ct (some msg)).tr
  ∧ HandlePut fs id target r ct (some msg)
      = HandlePut fs id target r ct (some (gs "invalid cross-device link")) := by
  have hsw : ∀ m : GoStr, swapPhase (extractPhase fs id target r ct).fs id target (some m)
      = swapPhase (extractPhase fs id target r ct).fs id target
          (some (gs "invalid cross-device link")) := by
    intro m
    unfold swapPhase
    split <;> rfl
  have hput : ∀ m : GoStr, HandlePut fs id target r ct (some m)
      = ⟨(swapPhase (extractPhase fs id target r ct).fs id target (some m)).fs,
         (swapPhase (extractPhase fs id target r ct).fs id target (some m)).err,
         (extractPhase fs id target r ct).tr
           ++ (swapPhase (extractPhase fs id target r ct).fs id target (some m)).tr⟩ := by
    intro m
    unfold HandlePut
    dsimp only
    rw [hext]
  refine ⟨?_, ?_, ?_⟩
  · rw [hput msg]
    unfold swapPhase
    split <;> rfl
  · rw [hput msg]
    simp only [List.mem_append]
    refine Or.inr ?_
    unfold swapPhase
    split
    · simp
    · simp
  · rw [hput msg, hput (gs "invalid cross-device link"), hsw msg]

/-- C2 witness: the amended theorem at a concrete swap failure whose message
is not a cross-device-link error. -/
theorem handlePut_swap_failure_rolls_back_witness :
    (HandlePut (setFile emptyFS (gs "/t") (gs "old")) (gs "i") (gs "/t")
        ⟨gs "new", [], none⟩ "application/octet-stream" (some (gs "disk error"))).err
      = some ⟨500, "failed to swap temporary directoy with target", ""⟩ :=
  (handlePut_swap_failure_rolls_back (setFile emptyFS (gs "/t") (gs "old")) (gs "i")
    (gs "/t") ⟨gs "new", [], none⟩ "application/octet-stream" (gs "disk error")
    (by decide)).1

/-! ## Pointwise facts about the filesystem operations -/

theorem not_isPrefixOf_of_head_ne {p : GoStr} {c d : Char} {x y : GoStr} (hcd : c ≠ d) :
    ((p ++ c :: x).isPrefixOf (p ++ d :: y)) = false := by
  rw [Bool.eq_false_iff]
  intro h
  rw [List.isPrefixOf_iff_prefix] at h
  obtain ⟨t2, ht⟩ := h
  rw [List.append_assoc] at ht
  have := List.append_cancel_left ht
  rw [List.cons_append] at this
  exact hcd (List.cons.injEq .. ▸ this).1

theorem not_isPrefixOf_of_length_lt {a b : GoStr} (h : b.length < a.length) :
    (a.isPrefixOf b) = false := by
  rw [Bool.eq_false_iff]
  intro hx
  have := length_le_of_isPrefixOf hx
  omega

theorem inTree_self (root : GoStr) : inTree root root = true := by
  simp [inTree]

theorem inTree_false_of {root q : GoStr} (h1 : q ≠ root)
    (h2 : q ≠ goTrimSuffix root (gs "/"))
    (h3 : ((goTrimSuffix root (gs "/") ++ gs "/").isPrefixOf q) = false) :
    inTree root q = false := by
  simp [inTree, h1, h2, h3]

theorem removeAll_files_in {fs : FS} {p q : GoStr} (h : inTree p q = true) :
    (removeAll fs p).files q = none := by
  simp [removeAll, h]

theorem removeAll_dirs_in {fs : FS} {p q : GoStr} (h : inTree p q = true) :
    (removeAll fs p).dirs q = false := by
  simp [removeAll, h]

theorem removeAll_files_out {fs : FS} {p q : GoStr} (h : inTree p q = false) :
    (removeAll fs p).files q = fs.files q := by
  simp [removeAll, h]

theorem removeAll_dirs_out {fs : FS} {p q : GoStr} (h : inTree p q = false) :
    (removeAll fs p).dirs q = fs.dirs q := by
  simp [removeAll, h]

theorem renameTree_files_dst (fs : FS) (src dst : GoStr) :
    (renameTree fs src dst).files dst
      = (fs.files src <|> fs.files (goTrimSuffix src (gs "/"))) := by
  unfold renameTree
  dsimp only
  rw [if_pos (Or.inl rfl)]

theorem renameTree_dirs_dst (fs : FS) (src dst : GoStr) :
    (renameTree fs src dst).dirs dst
      = (fs.dirs src || fs.dirs (goTrimSuffix src (gs "/"))) := by
  unfold renameTree
  dsimp only
  rw [if_pos (Or.inl rfl)]

theorem renameTree_files_gone {fs : FS} {src dst q : GoStr}
    (h1 : ¬(q = dst ∨ q = goTrimSuffix dst (gs "/")))
    (h2 : ((goTrimSuffix dst (gs "/") ++ gs "/").isPrefixOf q) = false)
    (h3 : inTree src q = true) :
    (renameTree fs src dst).files q = none := by
  unfold renameTree
  dsimp only
  rw [if_neg h1, if_neg (by simp [h2]), if_pos (by simp [h3])]

theorem renameTree_dirs_gone {fs : FS} {src dst q : GoStr}
    (h1 : ¬(q = dst ∨ q = goTrimSuffix dst (gs "/")))
    (h2 : ((goTrimSuffix dst (gs "/") ++ gs "/").isPrefixOf q) = false)
    (h3 : inTree src q = true) :
    (renameTree fs src dst).dirs q = false := by
  unfold renameTree
  dsimp only
  rw [if_neg h1, if_neg (by simp [h2]), if_pos (by simp [h3])]

theorem renameTree_files_out {fs : FS} {src dst q : GoStr}
    (h1 : ¬(q = dst ∨ q = goTrimSuffix dst (gs "/")))
    (h2 : ((goTrimSuffix dst (gs "/") ++ gs "/").isPrefixOf q) = false)
    (h3 : inTree src q = false) :
    (renameTree fs src dst).files q = fs.files q := by
  unfold renameTree
  dsimp only
  rw [if_neg h1, if_neg (by simp [h2]), if_neg (by simp [h3])]

theorem renameTree_dirs_out {fs : FS} {src dst q : GoStr}
    (h1 : ¬(q = dst ∨ q = goTrimSuffix dst (gs "/")))
    (h2 : ((goTrimSuffix dst (gs "/") ++ gs "/").isPrefixOf q) = false)
    (h3 : inTree src q = false) :
    (renameTree fs src dst).dirs q = fs.dirs q := by
  unfold renameTree
  dsimp only
  rw [if_neg h1, if_neg (by simp [h2]), if_neg (by simp [h3])]

theorem statExists_false_parts {fs : FS} {p : GoStr} (h : statExists fs p = false) :
    fs.files p = none ∧ fs.dirs p = false := by
  unfold statExists at h
  rcases Bool.or_eq_false_iff.mp h with ⟨h1, h2⟩
  refine ⟨?_, h2⟩
  cases hf : fs.files p with
  | none => rfl
  | some v =>
    rw [hf] at h1
    simp at h1

/-! ## Canonical append forms of the derived paths (file targets) -/

theorem getTempPath_file_eq {id target : GoStr}
    (hs : goHasSuffix target (gs "/") = false) :
    getTempPath id target = target ++ '-' :: (id ++ gs "-tmp") := by
  unfold getTempPath
  rw [hs]
  simp [gs, List.append_assoc]

theorem getBackupPath_file_eq {id target : GoStr}
    (hs : goHasSuffix target (gs "/") = false) :
    getBackupPath id target = target ++ '.' :: (id ++ gs "-backup") := by
  unfold getBackupPath
  rw [hs]
  simp [gs, List.append_assoc]

/-! ## The single-file deployment run, end to end -/

theorem extractPhase_file (fs : FS) (id target : GoStr) (r : Reader) (ct : String)
    (hs : goHasSuffix target (gs "/") = false)
    (hfr : statExists fs (getTempPath id target) = false) :
    extractPhase fs id target r ct
      = ⟨setFile (mkdirAll fs (goDir target)) (getTempPath id target) r.bytes, none,
         [.mkdirA (goDir target), .createA (getTempPath id target)]⟩ := by
  have hex : statExists (mkdirAll fs (goDir target)) (getTempPath id target) = false := by
    obtain ⟨h1, h2⟩ := statExists_false_parts hfr
    unfold statExists mkdirAll
    dsimp only
    rw [if_neg (Ne.symm (goDir_target_ne_getTempPath id target))]
    unfold statExists at hfr
    exact hfr
  unfold extractPhase
  dsimp only
  simp only [hs, Bool.false_eq_true, if_false]
  simp only [extractFile, hex, Bool.false_eq_true, if_false]

theorem inTree_false_of2 {root q : GoStr} (hroot : goTrimSuffix root (gs "/") = root)
    (h1 : q ≠ root) (h3 : ((root ++ gs "/").isPrefixOf q) = false) :
    inTree root q = false := by
  simp [inTree, hroot, h1, h3]

theorem ne_and_not_pre_of_inTree_false {root q : GoStr} (h : inTree root q = false) :
    q ≠ root ∧ q ≠ goTrimSuffix root (gs "/")
      ∧ ((goTrimSuffix root (gs "/") ++ gs "/").isPrefixOf q) = false := by
  unfold inTree at h
  rw [decide_eq_false_iff_not] at h
  push_neg at h
  obtain ⟨h1, h2, h3⟩ := h
  exact ⟨h1, h2, Bool.not_eq_true _ ▸ h3⟩

theorem handlePut_file_run (fs : FS) (id target : GoStr) (r : Reader) (ct : String)
    (hs : goHasSuffix target (gs "/") = false)
    (hpd : goDir target ≠ target)
    (hfr : statExists fs (getTempPath id target) = false) :
    (HandlePut fs id target r ct none).err = none
  ∧ (HandlePut fs id target r ct none).fs.files target = some r.bytes
  ∧ statExists (HandlePut fs id target r ct none).fs (getTempPath id target) = false
  ∧ (statExists fs (getBackupPath id target) = false →
      statExists (HandlePut fs id target r ct none).fs (getBackupPath id target) = false)
  ∧ ∀ q, q ≠ goDir target → inTree (getTempPath id target) q = false →
      inTree target q = false → inTree (getBackupPath id target) q = false →
      (HandlePut fs id target r ct none).fs.files q = fs.files q
        ∧ (HandlePut fs id target r ct none).fs.dirs q = fs.dirs q := by
  have htt := @getTempPath_file_eq id target hs
  have hbb := @getBackupPath_file_eq id target hs
  have hstt : goTrimSuffix (getTempPath id target) (gs "/") = getTempPath id target :=
    goTrimSuffix_of_not_suffix (getTempPath_noSlashSuffix_file hs)
  have hsbp : goTrimSuffix (getBackupPath id target) (gs "/") = getBackupPath id target :=
    goTrimSuffix_of_not_suffix (getBackupPath_noSlashSuffix_file hs)
  have hstg : goTrimSuffix target (gs "/") = target := goTrimSuffix_of_not_suffix hs
  have d1 : getTempPath id target ≠ target := getTempPath_ne_target id target
  have d2 : getBackupPath id target ≠ target := getBackupPath_ne_target id target
  have d3 : getTempPath id target ≠ getBackupPath id target :=
    getTempPath_ne_getBackupPath id target
  have d4 : goDir target ≠ getTempPath id target := goDir_target_ne_getTempPath id target
  have d5 : goDir target ≠ getBackupPath id target := goDir_target_ne_getBackupPath id target
  have hgsl : gs "/" = '/' :: ([] : GoStr) := rfl
  have ptt_tgt : ((target ++ gs "/").isPrefixOf (getTempPath id target)) = false := by
    rw [htt, hgsl]
    exact not_isPrefixOf_of_head_ne (by decide)
  have pbp_tgt : ((target ++ gs "/").isPrefixOf (getBackupPath id target)) = false := by
    rw [hbb, hgsl]
    exact not_isPrefixOf_of_head_ne (by decide)
  have ptt_bp : ((getBackupPath id target ++ gs "/").isPrefixOf (getTempPath id target))
      = false := by
    rw [htt, hbb, List.append_assoc, List.cons_append]
    exact not_isPrefixOf_of_head_ne (by decide)
  have ptgt_tt : ((getTempPath id target ++ gs "/").isPrefixOf target) = false := by
    apply not_isPrefixOf_of_length_lt
    rw [List.length_append, length_getTempPath]
    have h1 : (gs "/").length = 1 := rfl
    omega
  have pbp_tt : ((getTempPath id target ++ gs "/").isPrefixOf (getBackupPath id target))
      = false := by
    rw [htt, hbb, List.append_assoc, List.cons_append]
    exact not_isPrefixOf_of_head_ne (by decide)
  have itt_tgt : inTree target (getTempPath id target) = false :=
    inTree_false_of2 hstg d1 ptt_tgt
  have itt_bp : inTree (getBackupPath id target) (getTempPath id target) = false :=
    inTree_false_of2 hsbp d3 ptt_bp
  have ibp_tt : inTree (getTempPath id target) (getBackupPath id target) = false :=
    inTree_false_of2 hstt (Ne.symm d3) pbp_tt
  have itgt_tt : inTree (getTempPath id target) target = false :=
    inTree_false_of2 hstt (Ne.symm d1) ptgt_tt
  have itgt_bp : inTree (getBackupPath id target) target = false := by
    refine inTree_false_of2 hsbp (Ne.symm d2) ?_
    apply not_isPrefixOf_of_length_lt
    rw [List.length_append, length_getBackupPath]
    have h1 : (gs "/").length = 1 := rfl
    omega
  have hext := extractPhase_file fs id target r ct hs hfr
  have hput : HandlePut fs id target r ct none
      = ⟨(swapPhase (setFile (mkdirAll fs (goDir target)) (getTempPath id target) r.bytes)
            id target none).fs,
         (swapPhase (setFile (mkdirAll fs (goDir target)) (getTempPath id target) r.bytes)
            id target none).err,
         [.mkdirA (goDir target), .createA (getTempPath id target)]
           ++ (swapPhase (setFile (mkdirAll fs (goDir target)) (getTempPath id target)
                r.bytes) id target none).tr⟩ := by
    unfold HandlePut
    dsimp only
    rw [hext]
  set fs2 := setFile (mkdirAll fs (goDir target)) (getTempPath id target) r.bytes with hfs2
  have f2tt : fs2.files (getTempPath id target) = some r.bytes := by
    simp [hfs2, setFile]
  have f2 : ∀ q, q ≠ getTempPath id target → fs2.files q = fs.files q := by
    intro q hq
    simp [hfs2, setFile, mkdirAll, hq]
  have g2 : ∀ q, q ≠ goDir target → fs2.dirs q = fs.dirs q := by
    intro q hq
    simp [hfs2, setFile, mkdirAll, hq]
  have s2tgt : statExists fs2 target = statExists fs target := by
    unfold statExists
    rw [f2 target (Ne.symm d1), g2 target (Ne.symm hpd)]
  rw [hput]
  have nd_tt_tgt : ¬(getTempPath id target = target
      ∨ getTempPath id target = goTrimSuffix target (gs "/")) := by
    rw [hstg]
    intro hc
    exact d1 (hc.elim (fun x => x) (fun x => x))
  have nd_bp_tgt : ¬(getBackupPath id target = target
      ∨ getBackupPath id target = goTrimSuffix target (gs "/")) := by
    rw [hstg]
    intro hc
    exact d2 (hc.elim (fun x => x) (fun x => x))
  have nd_tt_bp : ¬(getTempPath id target = getBackupPath id target
      ∨ getTempPath id target = goTrimSuffix (getBackupPath id target) (gs "/")) := by
    rw [hsbp]
    intro hc
    exact d3 (hc.elim (fun x => x) (fun x => x))
  have hitt : inTree (getTempPath id target) (getTempPath id target) = true :=
    inTree_self _
  by_cases hex : statExists fs target = true
  · have hsw : swapPhase fs2 id target none
        = ⟨removeAll (renameTree (renameTree fs2 target (getBackupPath id target))
              (getTempPath id target) target) (getBackupPath id target), none,
           [.renameA target (getBackupPath id target),
            .renameA (getTempPath id target) target,
            .removeA (getBackupPath id target)]⟩ := by
      unfold swapPhase
      dsimp only
      rw [s2tgt, hex]
      simp only [if_true]
    rw [hsw]
    set fs3 := renameTree fs2 target (getBackupPath id target) with hfs3
    set fs4 := renameTree fs3 (getTempPath id target) target with hfs4
    have pstrip_bp : ((goTrimSuffix (getBackupPath id target) (gs "/") ++ gs "/").isPrefixOf
        (getTempPath id target)) = false := by
      rw [hsbp]
      exact ptt_bp
    have pstrip_tgt_tt : ((goTrimSuffix target (gs "/") ++ gs "/").isPrefixOf
        (getTempPath id target)) = false := by
      rw [hstg]
      exact ptt_tgt
    have f3tt : fs3.files (getTempPath id target) = some r.bytes := by
      rw [hfs3, renameTree_files_out nd_tt_bp pstrip_bp itt_tgt, f2tt]
    have f4tgt : fs4.files target = some r.bytes := by
      rw [hfs4, renameTree_files_dst, hstt, f3tt]
      rfl
    have f4tt : fs4.files (getTempPath id target) = none := by
      rw [hfs4]
      exact renameTree_files_gone nd_tt_tgt pstrip_tgt_tt hitt
    have g4tt : fs4.dirs (getTempPath id target) = false := by
      rw [hfs4]
      exact renameTree_dirs_gone nd_tt_tgt pstrip_tgt_tt hitt
    refine ⟨rfl, ?_, ?_, ?_, ?_⟩
    · dsimp only
      rw [removeAll_files_out itgt_bp, f4tgt]
    · dsimp only
      unfold statExists
      rw [removeAll_files_out itt_bp, removeAll_dirs_out itt_bp, f4tt, g4tt]
      rfl
    · intro _
      dsimp only
      unfold statExists
      rw [removeAll_files_in (inTree_self _), removeAll_dirs_in (inTree_self _)]
      rfl
    · intro q hq1 hq2 hq3 hq4
      dsimp only
      obtain ⟨n3a, n3b, n3c⟩ := ne_and_not_pre_of_inTree_false hq3
      obtain ⟨n4a, n4b, n4c⟩ := ne_and_not_pre_of_inTree_false hq4
      obtain ⟨n2a, _, _⟩ := ne_and_not_pre_of_inTree_false hq2
      have hnq_tgt : ¬(q = target ∨ q = goTrimSuffix target (gs "/")) := by
        intro hc
        exact hc.elim n3a n3b
      have hnq_bp : ¬(q = getBackupPath id target
          ∨ q = goTrimSuffix (getBackupPath id target) (gs "/")) := by
        intro hc
        exact hc.elim n4a n4b
      constructor
      · rw [removeAll_files_out hq4, hfs4,
          renameTree_files_out hnq_tgt n3c hq2, hfs3,
          renameTree_files_out hnq_bp n4c hq3]
        exact f2 q n2a
      · rw [removeAll_dirs_out hq4, hfs4,
          renameTree_dirs_out hnq_tgt n3c hq2, hfs3,
          renameTree_dirs_out hnq_bp n4c hq3]
        exact g2 q hq1
  · have hex' : statExists fs target = false := by
      cases hxx : statExists fs target with
      | false => rfl
      | true => exact absurd hxx hex
    have hsw : swapPhase fs2 id target none
        = ⟨renameTree fs2 (getTempPath id target) target, none,
           [.renameA (getTempPath id target) target]⟩ := by
      unfold swapPhase
      dsimp only
      rw [s2tgt, hex']
      simp only [Bool.false_eq_true, if_false]
    rw [hsw]
    have pstrip_tgt_tt : ((goTrimSuffix target (gs "/") ++ gs "/").isPrefixOf
        (getTempPath id target)) = false := by
      rw [hstg]
      exact ptt_tgt
    refine ⟨rfl, ?_, ?_, ?_, ?_⟩
    · dsimp only
      rw [renameTree_files_dst, hstt, f2tt]
      rfl
    · dsimp only
      unfold statExists
      have hf : (renameTree fs2 (getTempPath id target) target).files (getTempPath id target)
          = none := by
        exact renameTree_files_gone nd_tt_tgt pstrip_tgt_tt hitt
      have hg : (renameTree fs2 (getTempPath id target) target).dirs (getTempPath id target)
          = false := by
        exact renameTree_dirs_gone nd_tt_tgt pstrip_tgt_tt hitt
      rw [hf, hg]
      rfl
    · intro hbpfresh
      dsimp only
      unfold statExists
      have pstrip_tgt_bp : ((goTrimSuffix target (gs "/") ++ gs "/").isPrefixOf
          (getBackupPath id target)) = false := by
        rw [hstg]
        exact pbp_tgt
      rw [renameTree_files_out nd_bp_tgt pstrip_tgt_bp ibp_tt,
        renameTree_dirs_out nd_bp_tgt pstrip_tgt_bp ibp_tt,
        f2 _ (Ne.symm d3), g2 _ (Ne.symm d5)]
      exact hbpfresh
    · intro q hq1 hq2 hq3 _
      dsimp only
      obtain ⟨n3a, n3b, n3c⟩ := ne_and_not_pre_of_inTree_false hq3
      obtain ⟨n2a, _, _⟩ := ne_and_not_pre_of_inTree_false hq2
      have hnq_tgt : ¬(q = target ∨ q = goTrimSuffix target (gs "/")) := by
        intro hc
        exact hc.elim n3a n3b
      constructor
      · rw [renameTree_files_out hnq_tgt n3c hq2]
        exact f2 q n2a
      · rw [renameTree_dirs_out hnq_tgt n3c hq2]
        exact g2 q hq1

theorem getTempPath_ne_getBackupPath_cross {idA idB target : GoStr}
    (hs : goHasSuffix target (gs "/") = false) :
    getTempPath idA target ≠ getBackupPath idB target := by
  rw [getTempPath_file_eq hs, getBackupPath_file_eq hs]
  exact append_inj_of_ne (by decide)

theorem tmp_prefix_tmp_false {idA idB target : GoStr}
    (hs : goHasSuffix target (gs "/") = false) (hidB : '/' ∉ idB) :
    ((getTempPath idA target ++ gs "/").isPrefixOf (getTempPath idB target)) = false := by
  rw [getTempPath_file_eq hs, getTempPath_file_eq hs]
  rw [Bool.eq_false_iff]
  intro h
  rw [List.isPrefixOf_iff_prefix, List.append_assoc, List.cons_append,
    List.prefix_append_right_inj, List.cons_prefix_cons] at h
  obtain ⟨-, h⟩ := h
  have hsl : '/' ∈ (idA ++ gs "-tmp") ++ gs "/" := List.mem_append.mpr (Or.inr (by decide))
  have h2 : '/' ∈ idB ++ gs "-tmp" := h.subset hsl
  rcases List.mem_append.mp h2 with h3 | h3
  · exact hidB h3
  · exact absurd h3 (by decide)

theorem bp_prefix_bp_false {idA idB target : GoStr}
    (hs : goHasSuffix target (gs "/") = false) (hidB : '/' ∉ idB) :
    ((getBackupPath idA target ++ gs "/").isPrefixOf (getBackupPath idB target)) = false := by
  rw [getBackupPath_file_eq hs, getBackupPath_file_eq hs]
  rw [Bool.eq_false_iff]
  intro h
  rw [List.isPrefixOf_iff_prefix, List.append_assoc, List.cons_append,
    List.prefix_append_right_inj, List.cons_prefix_cons] at h
  obtain ⟨-, h⟩ := h
  have hsl : '/' ∈ (idA ++ gs "-backup") ++ gs "/" :=
    List.mem_append.mpr (Or.inr (by decide))
  have h2 : '/' ∈ idB ++ gs "-backup" := h.subset hsl
  rcases List.mem_append.mp h2 with h3 | h3
  · exact hidB h3
  · exact absurd h3 (by decide)

theorem bp_prefix_tmp_false {idA idB target : GoStr}
    (hs : goHasSuffix target (gs "/") = false) :
    ((getBackupPath idA target ++ gs "/").isPrefixOf (getTempPath idB target)) = false := by
  rw [getTempPath_file_eq hs, getBackupPath_file_eq hs, List.append_assoc,
    List.cons_append]
  exact not_isPrefixOf_of_head_ne (by decide)

theorem tmp_prefix_bp_false {idA idB target : GoStr}
    (hs : goHasSuffix target (gs "/") = false) :
    ((getTempPath idA target ++ gs "/").isPrefixOf (getBackupPath idB target)) = false := by
  rw [getTempPath_file_eq hs, getBackupPath_file_eq hs, List.append_assoc,
    List.cons_append]
  exact not_isPrefixOf_of_head_ne (by decide)

theorem bp_prefix_target_false {id target : GoStr}
    (hs : goHasSuffix target (gs "/") = false) :
    ((target ++ gs "/").isPrefixOf (getBackupPath id target)) = false := by
  rw [getBackupPath_file_eq hs]
  have hgsl : gs "/" = '/' :: ([] : GoStr) := rfl
  rw [hgsl]
  exact not_isPrefixOf_of_head_ne (by decide)

/-! ## Claim C8 — idempotent single-file replace -/

/-- C8: deploying the same file content to the same file target twice in
sequence (with fresh transaction identifiers, on a filesystem with no stale
staging or backup artifacts) succeeds both times, leaves the target with the
same final content as a single deployment, and leaves no staging or backup
artifact of either transaction on the filesystem. -/
theorem handlePut_file_idempotent (fs : FS) (id1 id2 target : GoStr) (r : Reader)
    (ct : String)
    (hs : goHasSuffix target (gs "/") = false)
    (hpd : goDir target ≠ target)
    (hid1 : '/' ∉ id1) (hid2 : '/' ∉ id2)
    (hfr1 : statExists fs (getTempPath id1 target) = false)
    (hfr2 : statExists fs (getTempPath id2 target) = false)
    (hbp1 : statExists fs (getBackupPath id1 target) = false)
    (hbp2 : statExists fs (getBackupPath id2 target) = false) :
    (HandlePut fs id1 target r ct none).err = none
  ∧ (HandlePut (HandlePut fs id1 target r ct none).fs id2 target r ct none).err = none
  ∧ (HandlePut fs id1 target r ct none).fs.files target = some r.bytes
  ∧ (HandlePut (HandlePut fs id1 target r ct none).fs id2 target r ct none).fs.files target
      = some r.bytes
  ∧ statExists (HandlePut (HandlePut fs id1 target r ct none).fs id2 target r ct none).fs
      (getTempPath id1 target) = false
  ∧ statExists (HandlePut (HandlePut fs id1 target r ct none).fs id2 target r ct none).fs
      (getTempPath id2 target) = false
  ∧ statExists (HandlePut (HandlePut fs id1 target r ct none).fs id2 target r ct none).fs
      (getBackupPath id1 target) = false
  ∧ statExists (HandlePut (HandlePut fs id1 target r ct none).fs id2 target r ct none).fs
      (getBackupPath id2 target) = false := by
  have hstg : goTrimSuffix target (gs "/") = target := goTrimSuffix_of_not_suffix hs
  have hstt1 : goTrimSuffix (getTempPath id1 target) (gs "/") = getTempPath id1 target :=
    goTrimSuffix_of_not_suffix (getTempPath_noSlashSuffix_file hs)
  have hstt2 : goTrimSuffix (getTempPath id2 target) (gs "/") = getTempPath id2 target :=
    goTrimSuffix_of_not_suffix (getTempPath_noSlashSuffix_file hs)
  have hsbp1 : goTrimSuffix (getBackupPath id1 target) (gs "/") = getBackupPath id1 target :=
    goTrimSuffix_of_not_suffix (getBackupPath_noSlashSuffix_file hs)
  have hsbp2 : goTrimSuffix (getBackupPath id2 target) (gs "/") = getBackupPath id2 target :=
    goTrimSuffix_of_not_suffix (getBackupPath_noSlashSuffix_file hs)
  obtain ⟨e1, f1tgt, s1tt1, s1bp1f, pres1⟩ := handlePut_file_run fs id1 target r ct hs hpd hfr1
  have s1bp1 := s1bp1f hbp1
  -- the second transaction's temp path is still free after the first run
  have s1tt2 : statExists (HandlePut fs id1 target r ct none).fs (getTempPath id2 target)
      = false := by
    by_cases heq : getTempPath id2 target = getTempPath id1 target
    · rw [heq]
      exact s1tt1
    · have hp := pres1 (getTempPath id2 target)
        (Ne.symm (goDir_target_ne_getTempPath id2 target))
        (inTree_false_of2 hstt1 heq (tmp_prefix_tmp_false hs hid2))
        (inTree_false_of2 hstg (getTempPath_ne_target id2 target)
          (by rw [getTempPath_file_eq hs]
              exact not_isPrefixOf_of_head_ne (by decide)))
        (inTree_false_of2 hsbp1 (getTempPath_ne_getBackupPath_cross hs)
          (bp_prefix_tmp_false hs))
      unfold statExists
      rw [hp.1, hp.2]
      exact hfr2
  -- the second transaction's backup path is still free after the first run
  have s1bp2 : statExists (HandlePut fs id1 target r ct none).fs (getBackupPath id2 target)
      = false := by
    by_cases heq : getBackupPath id2 target = getBackupPath id1 target
    · rw [heq]
      exact s1bp1
    · have hp := pres1 (getBackupPath id2 target)
        (Ne.symm (goDir_target_ne_getBackupPath id2 target))
        (inTree_false_of2 hstt1 (Ne.symm (getTempPath_ne_getBackupPath_cross hs))
          (tmp_prefix_bp_false hs))
        (inTree_false_of2 hstg (getBackupPath_ne_target id2 target)
          (bp_prefix_target_false hs))
        (inTree_false_of2 hsbp1 heq (bp_prefix_bp_false hs hid2))
      unfold statExists
      rw [hp.1, hp.2]
      exact hbp2
  obtain ⟨e2, f2tgt, s2tt2, s2bp2f, pres2⟩ :=
    handlePut_file_run (HandlePut fs id1 target r ct none).fs id2 target r ct hs hpd s1tt2
  have s2bp2 := s2bp2f s1bp2
  -- the first transaction's artifacts stay absent through the second run
  have s2tt1 : statExists
      (HandlePut (HandlePut fs id1 target r ct none).fs id2 target r ct none).fs
      (getTempPath id1 target) = false := by
    by_cases heq : getTempPath id1 target = getTempPath id2 target
    · rw [heq]
      exact s2tt2
    · have hp := pres2 (getTempPath id1 target)
        (Ne.symm (goDir_target_ne_getTempPath id1 target))
        (inTree_false_of2 hstt2 heq (tmp_prefix_tmp_false hs hid1))
        (inTree_false_of2 hstg (getTempPath_ne_target id1 target)
          (by rw [getTempPath_file_eq hs]
              exact not_isPrefixOf_of_head_ne (by decide)))
        (inTree_false_of2 hsbp2 (getTempPath_ne_getBackupPath_cross hs)
          (bp_prefix_tmp_false hs))
      unfold statExists
      rw [hp.1, hp.2]
      exact s1tt1
  have s2bp1 : statExists
      (HandlePut (HandlePut fs id1 target r ct none).fs id2 target r ct none).fs
      (getBackupPath id1 target) = false := by
    by_cases heq : getBackupPath id1 target = getBackupPath id2 target
    · rw [heq]
      exact s2bp2
    · have hp := pres2 (getBackupPath id1 target)
        (Ne.symm (goDir_target_ne_getBackupPath id1 target))
        (inTree_false_of2 hstt2 (Ne.symm (getTempPath_ne_getBackupPath_cross hs))
          (tmp_prefix_bp_false hs))
        (inTree_false_of2 hstg (getBackupPath_ne_target id1 target)
          (bp_prefix_target_false hs))
        (inTree_false_of2 hsbp2 heq (bp_prefix_bp_false hs hid1))
      unfold statExists
      rw [hp.1, hp.2]
      exact s1bp1
  exact ⟨e1, e2, f1tgt, f2tgt, s2tt1, s2tt2, s2bp1, s2bp2⟩

/-- C8 witness: two deployments of the same content to `/site/index.html`
with fresh ids `aa` and `bb` on an empty filesystem. -/
theorem handlePut_file_idempotent_witness :
    (HandlePut emptyFS (gs "aa") (gs "/site/index.html")
        ⟨gs "hello", [], none⟩ "application/octet-stream" none).err = none
  ∧ (HandlePut (HandlePut emptyFS (gs "aa") (gs "/site/index.html")
        ⟨gs "hello", [], none⟩ "application/octet-stream" none).fs (gs "bb")
        (gs "/site/index.html") ⟨gs "hello", [], none⟩ "application/octet-stream"
        none).err = none
  ∧ (HandlePut emptyFS (gs "aa") (gs "/site/index.html")
        ⟨gs "hello", [], none⟩ "application/octet-stream" none).fs.files
        (gs "/site/index.html") = some (gs "hello")
  ∧ (HandlePut (HandlePut emptyFS (gs "aa") (gs "/site/index.html")
        ⟨gs "hello", [], none⟩ "application/octet-stream" none).fs (gs "bb")
        (gs "/site/index.html") ⟨gs "hello", [], none⟩ "application/octet-stream"
        none).fs.files (gs "/site/index.html") = some (gs "hello") := by
  obtain ⟨h1, h2, h3, h4, -, -, -, -⟩ := handlePut_file_idempotent emptyFS (gs "aa")
    (gs "bb") (gs "/site/index.html") ⟨gs "hello", [], none⟩ "application/octet-stream"
    (by decide) (by decide) (by decide) (by decide) (by decide) (by decide)
    (by decide) (by decide)
  exact ⟨h1, h2, h3, h4⟩

/-! ## The extraction phase stays away from the target and backup paths -/

theorem getTempPath_ne_nil (id target : GoStr) : getTempPath id target ≠ [] := by
  intro e
  have := length_getTempPath id target
  rw [e] at this
  simp at this

theorem extractPhase_props (fs : FS) (id target : GoStr) (r : Reader) (ct : String)
    (hpd : goDir target ≠ target) :
    statExists (extractPhase fs id target r ct).fs target = statExists fs target
  ∧ ∀ a ∈ (extractPhase fs id target r ct).tr,
      (∃ q, a = FsAction.mkdirA q ∨ a = FsAction.createA q ∨ a = FsAction.writeA q)
      ∧ a.createsAt (getBackupPath id target) = false := by
  have d2 : getBackupPath id target ≠ target := getBackupPath_ne_target id target
  have d1 : getTempPath id target ≠ target := getTempPath_ne_target id target
  have d3 : getTempPath id target ≠ getBackupPath id target :=
    getTempPath_ne_getBackupPath id target
  have d5 : goDir target ≠ getBackupPath id target := goDir_target_ne_getBackupPath id target
  cases hs : goHasSuffix target (gs "/") with
  | false =>
    -- single-file target: mkdir of the parent directory, then extractFile
    have hred : extractPhase fs id target r ct
        = ⟨(extractFile (mkdirAll fs (goDir target)) (getTempPath id target) r.bytes).fs,
           (extractFile (mkdirAll fs (goDir target)) (getTempPath id target) r.bytes).err,
           .mkdirA (goDir target) ::
             (extractFile (mkdirAll fs (goDir target)) (getTempPath id target) r.bytes).tr⟩ := by
      unfold extractPhase
      dsimp only
      simp only [hs, Bool.false_eq_true, if_false]
    rw [hred]
    have g1 : (mkdirAll fs (goDir target)).dirs target = fs.dirs target := by
      simp [mkdirAll, Ne.symm hpd]
    by_cases hxf : statExists (mkdirAll fs (goDir target)) (getTempPath id target) = true
    · have hf : extractFile (mkdirAll fs (goDir target)) (getTempPath id target) r.bytes
          = ⟨mkdirAll fs (goDir target),
             some ⟨500, "failed to open target file for extraction", ""⟩, []⟩ := by
        simp [extractFile, hxf]
      rw [hf]
      constructor
      · unfold statExists
        dsimp only
        rw [g1]
        rfl
      · intro a ha
        rcases List.mem_cons.mp ha with h1 | h1
        · subst h1
          exact ⟨⟨goDir target, Or.inl rfl⟩, by simp [FsAction.createsAt, d5]⟩
        · simp at h1
    · have hxf' : statExists (mkdirAll fs (goDir target)) (getTempPath id target) = false := by
        cases hxx : statExists (mkdirAll fs (goDir target)) (getTempPath id target) with
        | false => rfl
        | true => exact absurd hxx hxf
      have hf : extractFile (mkdirAll fs (goDir target)) (getTempPath id target) r.bytes
          = ⟨setFile (mkdirAll fs (goDir target)) (getTempPath id target) r.bytes, none,
             [.createA (getTempPath id target)]⟩ := by
        simp [extractFile, hxf']
      rw [hf]
      constructor
      · unfold statExists
        dsimp only
        have hfi : (setFile (mkdirAll fs (goDir target)) (getTempPath id target)
            r.bytes).files target = fs.files target := by
          simp [setFile, mkdirAll, Ne.symm d1]
        have hdi : (setFile (mkdirAll fs (goDir target)) (getTempPath id target)
            r.bytes).dirs target = fs.dirs target := by
          simp [setFile, mkdirAll, Ne.symm hpd]
        rw [hfi, hdi]
      · intro a ha
        rcases List.mem_cons.mp ha with h1 | h1
        · subst h1
          exact ⟨⟨goDir target, Or.inl rfl⟩, by simp [FsAction.createsAt, d5]⟩
        · rcases List.mem_cons.mp h1 with h2 | h2
          · subst h2
            exact ⟨⟨getTempPath id target, Or.inr (Or.inl rfl)⟩,
              by simp [FsAction.createsAt, d3]⟩
          · simp at h2
  | true =>
    -- directory target: mkdir of the staging root, then extractDirectory
    have hred : extractPhase fs id target r ct
        = ⟨(extractDirectory (mkdirAll fs (getTempPath id target)) (getTempPath id target)
              r ct).fs,
           (extractDirectory (mkdirAll fs (getTempPath id target)) (getTempPath id target)
              r ct).err,
           .mkdirA (getTempPath id target) ::
             (extractDirectory (mkdirAll fs (getTempPath id target)) (getTempPath id target)
                r ct).tr⟩ := by
      unfold extractPhase
      dsimp only
      simp only [hs, if_true]
    rw [hred]
    have g1 : (mkdirAll fs (getTempPath id target)).dirs target = fs.dirs target := by
      simp [mkdirAll, Ne.symm d1]
    have s1 : statExists (mkdirAll fs (getTempPath id target)) target
        = statExists fs target := by
      unfold statExists
      rw [g1]
      rfl
    -- generic facts for any tar walk rooted at the staging path
    have htar : ∀ items : List TarItem,
        statExists (extractTar (mkdirAll fs (getTempPath id target))
            (getTempPath id target) items).fs target = statExists fs target
        ∧ ∀ a ∈ (extractTar (mkdirAll fs (getTempPath id target))
            (getTempPath id target) items).tr,
          (∃ q, a = FsAction.mkdirA q ∨ a = FsAction.createA q ∨ a = FsAction.writeA q)
          ∧ a.createsAt (getBackupPath id target) = false := by
      intro items
      obtain ⟨hft, hdt, htt⟩ := extractTar_touch (getTempPath id target)
        (getTempPath_ne_nil id target) items (mkdirAll fs (getTempPath id target))
      constructor
      · unfold statExists
        have hf : (extractTar (mkdirAll fs (getTempPath id target)) (getTempPath id target)
            items).fs.files target = (mkdirAll fs (getTempPath id target)).files target := by
          by_cases hc : (extractTar (mkdirAll fs (getTempPath id target))
              (getTempPath id target) items).fs.files target
              = (mkdirAll fs (getTempPath id target)).files target
          · exact hc
          · exact absurd rfl (keyTouched_ne_dir hs (Or.inl (hft target hc))).1
        have hd : (extractTar (mkdirAll fs (getTempPath id target)) (getTempPath id target)
            items).fs.dirs target = (mkdirAll fs (getTempPath id target)).dirs target := by
          by_cases hc : (extractTar (mkdirAll fs (getTempPath id target))
              (getTempPath id target) items).fs.dirs target
              = (mkdirAll fs (getTempPath id target)).dirs target
          · exact hc
          · exact absurd rfl (keyTouched_ne_dir hs (hdt target hc)).1
        rw [hf, hd, g1]
        rfl
      · intro a ha
        obtain ⟨q, hq, hkt⟩ := htt a ha
        have hqb : q ≠ getBackupPath id target := (keyTouched_ne_dir hs hkt).2
        rcases hq with hq | hq
        · exact ⟨⟨q, Or.inl hq⟩, by subst hq; simp [FsAction.createsAt, hqb]⟩
        · exact ⟨⟨q, Or.inr (Or.inr hq)⟩, by subst hq; simp [FsAction.createsAt, hqb]⟩
    have hmk : ∀ a, a = FsAction.mkdirA (getTempPath id target) →
        (∃ q, a = FsAction.mkdirA q ∨ a = FsAction.createA q ∨ a = FsAction.writeA q)
        ∧ a.createsAt (getBackupPath id target) = false := by
      intro a ha
      subst ha
      exact ⟨⟨getTempPath id target, Or.inl rfl⟩, by simp [FsAction.createsAt, d3]⟩
    unfold extractDirectory
    split
    · exact ⟨(htar r.tarItems).1, by
        intro a ha
        rcases List.mem_cons.mp ha with h1 | h1
        · exact hmk a h1
        · exact (htar r.tarItems).2 a h1⟩
    · exact ⟨(htar r.tarItems).1, by
        intro a ha
        rcases List.mem_cons.mp ha with h1 | h1
        · exact hmk a h1
        · exact (htar r.tarItems).2 a h1⟩
    all_goals try (
      unfold extractTarGz
      cases hg : r.gunzip with
      | none =>
        dsimp only
        refine ⟨s1, ?_⟩
        intro a ha
        rcases List.mem_cons.mp ha with h1 | h1
        · exact hmk a h1
        · simp at h1
      | some items =>
        dsimp only
        refine ⟨(htar items).1, ?_⟩
        intro a ha
        rcases List.mem_cons.mp ha with h1 | h1
        · exact hmk a h1
        · exact (htar items).2 a h1)
    · refine ⟨s1, ?_⟩
      intro a ha
      rcases List.mem_cons.mp ha with h1 | h1
      · exact hmk a h1
      · simp at h1

/-! ## Claim C4 — backup if and only if the target existed -/

/-- C4: during a PUT deployment the backup rename (target → backup path) is
performed exactly when staging succeeded and the target existed when the
transaction started; and when the target did not exist, no filesystem action
of the transaction ever creates anything at the backup path. -/
theorem handlePut_backup_iff (fs : FS) (id target : GoStr) (r : Reader) (ct : String)
    (swapErr : Option GoStr) (hpd : goDir target ≠ target) :
    (FsAction.renameA target (getBackupPath id target)
        ∈ (HandlePut fs id target r ct swapErr).tr
      ↔ ((extractPhase fs id target r ct).err = none ∧ statExists fs target = true))
  ∧ (statExists fs target = false →
      ∀ a ∈ (HandlePut fs id target r ct swapErr).tr,
        a.createsAt (getBackupPath id target) = false) := by
  obtain ⟨hpres, htrs⟩ := extractPhase_props fs id target r ct hpd
  have d1 := getTempPath_ne_target id target
  have d2 := getBackupPath_ne_target id target
  have hnoren : ∀ s d, FsAction.renameA s d ∉ (extractPhase fs id target r ct).tr := by
    intro s d hmem
    obtain ⟨⟨q, hq⟩, -⟩ := htrs _ hmem
    rcases hq with hq | hq | hq <;> exact FsAction.noConfusion hq
  cases hext : (extractPhase fs id target r ct).err with
  | some e =>
    have hput : HandlePut fs id target r ct swapErr
        = ⟨(extractPhase fs id target r ct).fs, some e,
           (extractPhase fs id target r ct).tr⟩ := by
      unfold HandlePut
      dsimp only
      rw [hext]
    rw [hput]
    constructor
    · constructor
      · intro hmem
        exact absurd hmem (hnoren _ _)
      · rintro ⟨hnone, -⟩
        simp at hnone
    · intro _ a ha
      exact (htrs a ha).2
  | none =>
    have hput : HandlePut fs id target r ct swapErr
        = ⟨(swapPhase (extractPhase fs id target r ct).fs id target swapErr).fs,
           (swapPhase (extractPhase fs id target r ct).fs id target swapErr).err,
           (extractPhase fs id target r ct).tr
             ++ (swapPhase (extractPhase fs id target r ct).fs id target swapErr).tr⟩ := by
      unfold HandlePut
      dsimp only
      rw [hext]
    rw [hput]
    by_cases hex : statExists fs target = true
    · have hsx : statExists (extractPhase fs id target r ct).fs target = true := by
        rw [hpres]
        exact hex
      have hswtr : FsAction.renameA target (getBackupPath id target)
          ∈ (swapPhase (extractPhase fs id target r ct).fs id target swapErr).tr := by
        unfold swapPhase
        dsimp only
        rw [hsx]
        simp only [if_true]
        cases swapErr <;> simp
      constructor
      · constructor
        · intro _
          exact ⟨rfl, hex⟩
        · intro _
          exact List.mem_append.mpr (Or.inr hswtr)
      · intro hsf
        rw [hsf] at hex
        simp at hex
    · have hex' : statExists fs target = false := by
        cases hxx : statExists fs target with
        | false => rfl
        | true => exact absurd hxx hex
      have hsx : statExists (extractPhase fs id target r ct).fs target = false := by
        rw [hpres]
        exact hex'
      have hprop : ∀ a ∈ (swapPhase (extractPhase fs id target r ct).fs id target
            swapErr).tr,
          a ≠ FsAction.renameA target (getBackupPath id target)
          ∧ a.createsAt (getBackupPath id target) = false := by
        unfold swapPhase
        dsimp only
        rw [hsx]
        simp only [Bool.false_eq_true, if_false]
        cases swapErr with
        | none =>
          dsimp only
          intro a ha
          rw [List.mem_singleton] at ha
          subst ha
          constructor
          · intro hc
            injection hc with h1 h2
            exact d1 h1
          · simp [FsAction.createsAt, Ne.symm d2]
        | some m =>
          dsimp only
          intro a ha
          rcases List.mem_cons.mp ha with h1 | h1
          · subst h1
            exact ⟨fun hc => FsAction.noConfusion hc, by simp [FsAction.createsAt]⟩
          · unfold rollback at h1
            by_cases hb : statExists (extractPhase fs id target r ct).fs
                (getBackupPath id target) = false
            · rw [if_pos hb] at h1
              simp at h1
            · rw [if_neg hb] at h1
              dsimp only at h1
              rcases List.mem_cons.mp h1 with h2 | h2
              · subst h2
                exact ⟨fun hc => FsAction.noConfusion hc, by simp [FsAction.createsAt]⟩
              · rcases List.mem_cons.mp h2 with h3 | h3
                · subst h3
                  constructor
                  · intro hc
                    injection hc with ha1 ha2
                    exact d2 ha1
                  · simp [FsAction.createsAt, Ne.symm d2]
                · rw [List.mem_singleton] at h3
                  subst h3
                  exact ⟨fun hc => FsAction.noConfusion hc, by simp [FsAction.createsAt]⟩
      constructor
      · constructor
        · intro hmem
          rcases List.mem_append.mp hmem with h1 | h1
          · exact absurd h1 (hnoren _ _)
          · exact absurd rfl ((hprop _ h1).1)
        · rintro ⟨-, hx⟩
          rw [hx] at hex'
          simp at hex'
      · intro _ a ha
        rcases List.mem_append.mp ha with h1 | h1
        · exact (htrs a h1).2
        · exact (hprop a h1).2

/-- C4 witness: with a pre-existing target the backup rename appears in the
transaction trace. -/
theorem handlePut_backup_iff_witness :
    FsAction.renameA (gs "/t") (getBackupPath (gs "i") (gs "/t"))
      ∈ (HandlePut (setFile emptyFS (gs "/t") (gs "old")) (gs "i") (gs "/t")
          ⟨gs "new", [], none⟩ "application/octet-stream" none).tr :=
  ((handlePut_backup_iff (setFile emptyFS (gs "/t") (gs "old")) (gs "i") (gs "/t")
    ⟨gs "new", [], none⟩ "application/octet-stream" none (by decide)).1).mpr
    ⟨by decide, by decide⟩
